import Mathlib

/-!
Verification development for the xln chat-bot's multi-model query orchestrator
(`src/xln-ai-bot-main/main.py`).

Python strings are embedded as `List Char` (Python `len` counts code points,
as does `List.length`).  The regular expressions of `main.py` are embedded via
a small backtracking engine (`RE`, `reMatch`) that implements Python's
leftmost-first match semantics for the constructs those patterns use:
character classes, concatenation, greedy and lazy counted repetition, capture
groups, and the MULTILINE `^`/`$` anchors.  Python's Unicode-aware `\w` and
`str.lower` are modelled over the ASCII and Cyrillic ranges, which cover every
literal appearing in the program (the score summaries are Russian/English
text).
-/

namespace XlnBot

/-- Python `\d` (restricted to ASCII digits, the only digits the program's
prompts and tests produce). -/
def isDigitChar (c : Char) : Bool := c.isDigit

/-- Cyrillic letters (U+0400 – U+04FF), needed because `\w` in Python 3 is
Unicode-aware and the bot's summaries are Russian. -/
def isCyrillic (c : Char) : Bool := 0x400 ≤ c.toNat && c.toNat ≤ 0x4FF

/-- Python `\w`: letters, digits, underscore (ASCII plus Cyrillic). -/
def isWordChar (c : Char) : Bool := c.isAlphanum || c = '_' || isCyrillic c

/-- Python `\s` (also the default `str.strip` character set):
space, tab, newline, carriage return, vertical tab, form feed. -/
def isSpaceChar (c : Char) : Bool :=
  c = ' ' || c = '\t' || c = '\n' || c = '\r' || c = '\x0b' || c = '\x0c'

/-- Python `str.lower` on the character ranges used by the program:
ASCII A–Z and Cyrillic А–Я/Ё. -/
def lowerChar (c : Char) : Char :=
  if 'A' ≤ c && c ≤ 'Z' then Char.ofNat (c.toNat + 32)
  else if 0x410 ≤ c.toNat && c.toNat ≤ 0x42F then Char.ofNat (c.toNat + 0x20)
  else if c.toNat = 0x401 then Char.ofNat 0x451
  else c

def lowerStr (cs : List Char) : List Char := cs.map lowerChar

/-- Numeric value of a digit string, as Python `int` on a `\d{1,4}` capture. -/
def digitsVal (cs : List Char) : Nat :=
  cs.foldl (fun a c => a * 10 + (c.toNat - '0'.toNat)) 0

/-- Python `str.strip()` with the default whitespace set. -/
def pyStrip (cs : List Char) : List Char :=
  ((cs.dropWhile isSpaceChar).reverse.dropWhile isSpaceChar).reverse

/-- Index of the first position of `cs` where `sep` occurs as a prefix of the
remaining text — Python `str.find` returning an option instead of `-1`. -/
def findSepIdx (sep : List Char) : List Char → Option Nat
  | [] => if sep.isEmpty then some 0 else none
  | c :: cs =>
    if sep.isPrefixOf (c :: cs) then some 0
    else (findSepIdx sep cs).map (fun i => i + 1)

theorem findSepIdx_le (sep : List Char) :
    ∀ (cs : List Char) (i : Nat), findSepIdx sep cs = some i →
      i + sep.length ≤ cs.length := by
  intro cs
  induction cs with
  | nil =>
    intro i h
    simp only [findSepIdx] at h
    split at h
    · cases h
      simp_all [List.isEmpty_iff]
    · cases h
  | cons c cs ih =>
    intro i h
    simp only [findSepIdx] at h
    split at h
    · cases h
      rename_i hpre
      have := List.IsPrefix.length_le (List.isPrefixOf_iff_prefix.mp hpre)
      simpa using this
    · rcases Option.map_eq_some'.mp h with ⟨j, hj, rfl⟩
      have := ih j hj
      simp only [List.length_cons]
      omega

/-- Fuelled splitter; each step removes at least one character (the
separator is nonempty at every call site), so `length + 1` fuel always
reaches the `findSepIdx _ _ = none` base case. -/
def splitSepF (sep : List Char) : Nat → List Char → List (List Char)
  | 0, cs => [cs]
  | fuel + 1, cs =>
    match findSepIdx sep cs with
    | none => [cs]
    | some i => cs.take i :: splitSepF sep fuel (cs.drop (i + sep.length))

/-- Split on a (nonempty) separator, Python `str.split(sep)` semantics:
leftmost, non-overlapping, empty pieces kept. -/
def splitSep (s0 : Char) (srest : List Char) (cs : List Char) : List (List Char) :=
  splitSepF (s0 :: srest) (cs.length + 1) cs

/-- Join with a separator (`sep.join` in Python). -/
def joinSep (sep : List Char) : List (List Char) → List Char
  | [] => []
  | [x] => x
  | x :: y :: xs => x ++ sep ++ joinSep sep (y :: xs)

/-- `needle` occurs as a contiguous substring of `hay`. -/
def containsSub (needle hay : List Char) : Bool :=
  (findSepIdx needle hay).isSome

/-! ## A backtracking regex engine

`RE` covers exactly the constructs appearing in `main.py`'s patterns.
`reMatch` is continuation-passing: alternatives are tried in Python's
priority order (greedy repetition consumes first, lazy repetition yields
first), and `none` from the continuation triggers backtracking, so the
overall result is Python's leftmost-first match. -/

inductive RE where
  | eps
  | cls (f : Char → Bool)
  | seq (a b : RE)
  | rep (r : RE) (lo : Nat) (hi : Option Nat) (greedy : Bool)
  | grp (idx : Nat) (r : RE)
  | bol
  | eol

/-- Structural size of a regex, used to compute a sufficient fuel bound. -/
def reSize : RE → Nat
  | .eps | .cls _ | .bol | .eol => 1
  | .seq a b => 1 + reSize a + reSize b
  | .rep r _ _ _ => 1 + reSize r
  | .grp _ r => 1 + reSize r

/-- Match `r` against `cs`; `prev` is the character just before `cs` in the
full subject (for the MULTILINE `^` anchor), `gs` the captures so far, `k` the
continuation.  `fuel` decreases at every recursive call; along one call chain
every repetition step consumes a character (the `cs2.length < cs.length`
guard), so `(reSize r + 1) * (cs.length + 2)` fuel is never exhausted and the
result equals Python's leftmost-first backtracking match. -/
def reMatch {α : Type} : Nat → RE → Option Char → List Char →
    List (Nat × List Char) →
    (Option Char → List Char → List (Nat × List Char) → Option α) → Option α
  | 0, _, _, _, _, _ => none
  | fuel + 1, r, prev, cs, gs, k =>
    match r with
    | .eps => k prev cs gs
    | .cls f =>
      match cs with
      | [] => none
      | c :: rest => if f c then k (some c) rest gs else none
    | .bol => if prev = none ∨ prev = some '\n' then k prev cs gs else none
    | .eol => if cs.head? = some '\n' ∨ cs = [] then k prev cs gs else none
    | .seq a b =>
      reMatch fuel a prev cs gs (fun p cs2 gs2 => reMatch fuel b p cs2 gs2 k)
    | .grp i r1 => reMatch fuel r1 prev cs gs
        (fun p cs2 gs2 => k p cs2 ((i, cs.take (cs.length - cs2.length)) :: gs2))
    | .rep r1 lo hi greedy =>
      let stop : Option α := if lo = 0 then k prev cs gs else none
      let go : Unit → Option α := fun _ =>
        if hi = some 0 then none
        else reMatch fuel r1 prev cs gs (fun p cs2 gs2 =>
          if cs2.length < cs.length then
            reMatch fuel (.rep r1 (lo - 1) (hi.map (fun m => m - 1)) greedy) p cs2 gs2 k
          else none)
      if greedy then (go ()).orElse (fun _ => stop) else stop.orElse go

/-- The fuel with which a pattern is run on a subject (sufficient, see
`reMatch`). -/
def reFuel (re : RE) (cs : List Char) : Nat := (reSize re + 1) * (cs.length + 2)

/-- Attempt a match of `re` at the current position: the suffix after the
match end and the captures. -/
def reTryHere (re : RE) (prev : Option Char) (cs : List Char) :
    Option (List Char × List (Nat × List Char)) :=
  reMatch (reFuel re cs) re prev cs [] (fun _ cs2 gs2 => some (cs2, gs2))

/-- Scan for the leftmost match of `re` (Python `re.search`).  Returns the
subject suffix at the match start, the suffix after the match end, and the
captures. -/
def reSearchAux (re : RE) (prev : Option Char) : List Char →
    Option (List Char × List Char × List (Nat × List Char))
  | [] =>
    match reTryHere re prev [] with
    | some (cs2, gs2) => some ([], cs2, gs2)
    | none => none
  | c :: rest =>
    match reTryHere re prev (c :: rest) with
    | some (cs2, gs2) => some (c :: rest, cs2, gs2)
    | none => reSearchAux re (some c) rest

/-- The character immediately before `rest` in the subject, given the match
started at `csAt` and `prev` preceded `csAt`. -/
def lastConsumed (csAt rest : List Char) (prev : Option Char) : Option Char :=
  match (csAt.take (csAt.length - rest.length)).getLast? with
  | some c => some c
  | none => prev

/-- Python `re.findall`: all non-overlapping matches, scanning left to right
(a zero-width match advances one character, as in Python — never hit by the
program's patterns, whose matches are all nonempty). -/
def findallAux (fuel : Nat) (re : RE) (prev : Option Char) (cs : List Char) :
    List (List (Nat × List Char)) :=
  match fuel with
  | 0 => []
  | f1 + 1 =>
    match reSearchAux re prev cs with
    | none => []
    | some (csAt, rest, gs) =>
      if csAt.length = rest.length then
        match csAt with
        | [] => [gs]
        | c :: cs2 => gs :: findallAux f1 re (some c) cs2
      else gs :: findallAux f1 re (lastConsumed csAt rest prev) rest

def findall (re : RE) (cs : List Char) : List (List (Nat × List Char)) :=
  findallAux (cs.length + 1) re none cs

/-- Python `re.sub` with a replacement computed from the captures.  Anchors
are evaluated against the original subject, as in Python's scanner. -/
def subAux (fuel : Nat) (re : RE) (repl : List (Nat × List Char) → List Char)
    (prev : Option Char) (cs : List Char) : List Char :=
  match fuel with
  | 0 => cs
  | f1 + 1 =>
    match reSearchAux re prev cs with
    | none => cs
    | some (csAt, rest, gs) =>
      let pre := cs.take (cs.length - csAt.length)
      if csAt.length = rest.length then
        match csAt with
        | [] => pre ++ repl gs
        | c :: cs2 => pre ++ repl gs ++ c :: subAux f1 re repl (some c) cs2
      else pre ++ repl gs ++ subAux f1 re repl (lastConsumed csAt rest prev) rest

def subAll (re : RE) (repl : List (Nat × List Char) → List Char) (cs : List Char) : List Char :=
  subAux (cs.length + 1) re repl none cs

/-- First capture of group `i`. -/
def findGroup (gs : List (Nat × List Char)) (i : Nat) : List Char :=
  match gs.find? (fun p => p.1 = i) with
  | some p => p.2
  | none => []

/-- Sequence a list of regexes. -/
def seqs (rs : List RE) : RE := rs.foldr RE.seq RE.eps

/-- A literal string; `ci` selects IGNORECASE comparison (Python lowercases
both sides). -/
def reLit (ci : Bool) (s : String) : RE :=
  seqs (s.data.map (fun c =>
    RE.cls (fun x => if ci then lowerChar x = lowerChar c else x = c)))

/-- `\w+` (greedy). -/
def reWplus : RE := .rep (.cls isWordChar) 1 none true

/-- `\s*` (greedy). -/
def reSstar : RE := .rep (.cls isSpaceChar) 0 none true

/-- `\s+` (greedy). -/
def reSplus : RE := .rep (.cls isSpaceChar) 1 none true

/-- `\d{1,4}` (greedy). -/
def reD14 : RE := .rep (.cls isDigitChar) 1 (some 4) true

/-- `.*?` (lazy, `.` excludes newline). -/
def reDotStarLazy : RE := .rep (.cls (fun c => c ≠ '\n')) 0 none false

/-! ## Score extractor (`parse_scores_from_summary`, main.py:482-538) -/

/-- `r'Participant:\s*(\w+)\s*-\s*Score:\s*(\d{1,4})'` (IGNORECASE). -/
def pat1 : RE := seqs [reLit true "Participant:", reSstar, .grp 1 reWplus, reSstar,
  reLit true "-", reSstar, reLit true "Score:", reSstar, .grp 2 reD14]

/-- `r'(\w+)\s*[:\-]\s*(\d{1,4})'`. -/
def pat2 : RE := seqs [.grp 1 reWplus, reSstar,
  .cls (fun c => c = ':' || c = '-'), reSstar, .grp 2 reD14]

/-- `r'(\w+).*?(\d{1,4})\s*балл'` (IGNORECASE). -/
def pat3 : RE := seqs [.grp 1 reWplus, reDotStarLazy, .grp 2 reD14, reSstar,
  reLit true "балл"]

/-- `r'(\w+).*?(\d{1,4})\s*очков'` (IGNORECASE). -/
def pat4 : RE := seqs [.grp 1 reWplus, reDotStarLazy, .grp 2 reD14, reSstar,
  reLit true "очков"]

/-- `r'(\w+).*?(\d{1,4})\s*points'` (IGNORECASE). -/
def pat5 : RE := seqs [.grp 1 reWplus, reDotStarLazy, .grp 2 reD14, reSstar,
  reLit true "points"]

/-- `r'(\w+)\s*-\s*Score:\s*(\d{1,4})'` (IGNORECASE). -/
def pat6 : RE := seqs [.grp 1 reWplus, reSstar, reLit true "-", reSstar,
  reLit true "Score:", reSstar, .grp 2 reD14]

/-- The ordered strategy cascade of `parse_scores_from_summary`. -/
def scorePatterns : List RE := [pat1, pat2, pat3, pat4, pat5, pat6]

/-- The `(username, score)` candidates a pattern yields on a text:
`match[0].strip()` and `int(match[1])` for each `re.findall` tuple (the score
group is `\d{1,4}`, so `int` cannot fail and the value is a `Nat`). -/
def matchCandidates (p : RE) (text : List Char) : List (String × Nat) :=
  (findall p text).map (fun gs =>
    (String.mk (pyStrip (findGroup gs 1)), digitsVal (findGroup gs 2)))

/-- Lookup in an insertion-ordered score table (`scores[u]` /
`u in scores`). -/
def lookupScore : List (String × Nat) → String → Option Nat
  | [], _ => none
  | e :: rest, u => if e.1 = u then some e.2 else lookupScore rest u

/-- In-place update of an existing key, preserving the table's order;
appends when the key is new (Python `dict.__setitem__`). -/
def setScore : List (String × Nat) → String → Nat → List (String × Nat)
  | [], u, n => [(u, n)]
  | e :: rest, u, n =>
    if e.1 = u then (u, n) :: rest else e :: setScore rest u n

/-- One candidate folded into the table, main.py:510-514:
`if 0 <= score <= 1000: if username not in scores or scores[username] < score:
scores[username] = score` (the lower bound is automatic for a digit string). -/
def addScore (scores : List (String × Nat)) (u : String) (n : Nat) : List (String × Nat) :=
  if n ≤ 1000 then
    match lookupScore scores u with
    | none => scores ++ [(u, n)]
    | some m => if m < n then setScore scores u n else scores
  else scores

/-- The regex-strategy pass, main.py:505-516. -/
def primaryScores (text : List Char) : List (String × Nat) :=
  scorePatterns.foldl
    (fun sc p => (matchCandidates p text).foldl (fun sc2 c => addScore sc2 c.1 c.2) sc) []

/-- Header words excluded by the fallback, main.py:533. -/
def scoreStoplist : List (List Char) :=
  ["score".data, "participant".data, "оценка".data, "балл".data]

/-- Index of the first digit of a line. -/
def firstDigitIdx : List Char → Option Nat
  | [] => none
  | c :: rest =>
    if isDigitChar c then some 0 else (firstDigitIdx rest).map (fun i => i + 1)

/-- First `\w+` token of a line (leftmost maximal run of word characters);
`re.search(r'(\w+)', ·)`. -/
def firstWordTok : List Char → Option (List Char)
  | [] => none
  | c :: rest =>
    if isWordChar c then some (c :: rest.takeWhile isWordChar) else firstWordTok rest

/-- The per-line fallback, main.py:522-534: the leftmost `\d{1,4}` match is
the first digit run truncated to four digits (`line.find` of that digit
string is its own start index, since its first character is the line's first
digit); the username is the first word token of the text before it. -/
def fallbackLine (line : List Char) : Option (String × Nat) :=
  match firstDigitIdx line with
  | none => none
  | some i =>
    if digitsVal (((line.drop i).takeWhile isDigitChar).take 4) ≤ 1000 then
      match firstWordTok (line.take i) with
      | none => none
      | some u =>
        if lowerStr u ∈ scoreStoplist then none
        else some (String.mk u, digitsVal (((line.drop i).takeWhile isDigitChar).take 4))
    else none

/-- The lines of the summary, `summary_text.split('\n')`. -/
def summaryLines (text : List Char) : List (List Char) := splitSep '\n' [] text

/-- The fallback pass, main.py:519-534; note `scores[username] = score`
overwrites unconditionally. -/
def fallbackScores (text : List Char) : List (String × Nat) :=
  (summaryLines text).foldl
    (fun sc line =>
      match fallbackLine line with
      | some (u, n) => setScore sc u n
      | none => sc) []

/-- `parse_scores_from_summary`, main.py:482-538: the fallback runs only
when the strategy cascade produced an empty table (`if not scores:`). -/
def parse_scores_from_summary (summary_text : List Char) : List (String × Nat) :=
  if (primaryScores summary_text).isEmpty then fallbackScores summary_text
  else primaryScores summary_text

/-! ## Markup stripper (`remove_markdown`, main.py:541-577) -/

/-- `` r'```[\s\S]*?```' `` — fenced code blocks. -/
def mdCodeBlock : RE := seqs [reLit false "```", .rep (.cls (fun _ => true)) 0 none false,
  reLit false "```"]

/-- `` r'`([^`]+)`' `` — inline code. -/
def mdInlineCode : RE := seqs [.cls (fun c => c = '`'),
  .grp 1 (.rep (.cls (fun c => c ≠ '`')) 1 none true), .cls (fun c => c = '`')]

/-- `r'\[([^\]]+)\]\([^\)]+\)'` — links, keeping the text. -/
def mdLink : RE := seqs [.cls (fun c => c = '['),
  .grp 1 (.rep (.cls (fun c => c ≠ ']')) 1 none true), .cls (fun c => c = ']'),
  .cls (fun c => c = '('), .rep (.cls (fun c => c ≠ ')')) 1 none true,
  .cls (fun c => c = ')')]

/-- `r'^#{1,6}\s+'` (MULTILINE) — heading markers. -/
def mdHeader : RE := seqs [.bol, .rep (.cls (fun c => c = '#')) 1 (some 6) true, reSplus]

/-- `r'\*\*\*([^*]+)\*\*\*'`. -/
def mdBoldItalicStar : RE := seqs [reLit false "***",
  .grp 1 (.rep (.cls (fun c => c ≠ '*')) 1 none true), reLit false "***"]

/-- `r'\*\*([^*]+)\*\*'`. -/
def mdBoldStar : RE := seqs [reLit false "**",
  .grp 1 (.rep (.cls (fun c => c ≠ '*')) 1 none true), reLit false "**"]

/-- `r'\*([^*\n]+)\*'`. -/
def mdItalicStar : RE := seqs [.cls (fun c => c = '*'),
  .grp 1 (.rep (.cls (fun c => c ≠ '*' && c ≠ '\n')) 1 none true),
  .cls (fun c => c = '*')]

/-- `r'___([^_]+)___'`. -/
def mdBoldItalicUnd : RE := seqs [reLit false "___",
  .grp 1 (.rep (.cls (fun c => c ≠ '_')) 1 none true), reLit false "___"]

/-- `r'__([^_]+)__'`. -/
def mdBoldUnd : RE := seqs [reLit false "__",
  .grp 1 (.rep (.cls (fun c => c ≠ '_')) 1 none true), reLit false "__"]

/-- `r'_([^_\n]+)_'`. -/
def mdItalicUnd : RE := seqs [.cls (fun c => c = '_'),
  .grp 1 (.rep (.cls (fun c => c ≠ '_' && c ≠ '\n')) 1 none true),
  .cls (fun c => c = '_')]

/-- `r'~~([^~]+)~~'`. -/
def mdStrike : RE := seqs [reLit false "~~",
  .grp 1 (.rep (.cls (fun c => c ≠ '~')) 1 none true), reLit false "~~"]

/-- `r'^---+$'` (MULTILINE) — horizontal rules. -/
def mdHRule : RE := seqs [.bol, reLit false "--",
  .rep (.cls (fun c => c = '-')) 1 none true, .eol]

/-- Replacement by the first capture group (`r'\1'`). -/
def replGroup1 (gs : List (Nat × List Char)) : List Char := findGroup gs 1

/-- Replacement by the empty string. -/
def replEmpty (_gs : List (Nat × List Char)) : List Char := []

/-- Emit a pending run of `n` copies of `ch`: collapsed to `rep` copies when
it reached the threshold `lo`, kept as-is otherwise. -/
def emitRun (ch : Char) (lo rep n : Nat) : List Char :=
  if lo ≤ n then List.replicate rep ch else List.replicate n ch

def collapseGo (ch : Char) (lo rep : Nat) : Nat → List Char → List Char
  | n, [] => emitRun ch lo rep n
  | n, c :: cs =>
    if c = ch then collapseGo ch lo rep (n + 1) cs
    else emitRun ch lo rep n ++ c :: collapseGo ch lo rep 0 cs

/-- `re.sub(ch{lo,}, ch*rep, ·)` for a single-character class: each maximal
run of at least `lo` copies of `ch` becomes exactly `rep` copies (the greedy
repetition always consumes a whole maximal run). -/
def collapseRuns (ch : Char) (lo rep : Nat) (cs : List Char) : List Char :=
  collapseGo ch lo rep 0 cs

/-- `remove_markdown`, main.py:541-577.  The fourteen passes in source
order; `re.sub(r'\n{3,}', '\n\n', ·)` and `re.sub(r' {2,}', ' ', ·)` are the
two run-collapsing passes, and the result is `.strip()`ped. -/
def remove_markdown (text : List Char) : List Char :=
  if text.isEmpty then text
  else
    let t := subAll mdCodeBlock replEmpty text
    let t := subAll mdInlineCode replGroup1 t
    let t := subAll mdLink replGroup1 t
    let t := subAll mdHeader replEmpty t
    let t := subAll mdBoldItalicStar replGroup1 t
    let t := subAll mdBoldStar replGroup1 t
    let t := subAll mdItalicStar replGroup1 t
    let t := subAll mdBoldItalicUnd replGroup1 t
    let t := subAll mdBoldUnd replGroup1 t
    let t := subAll mdItalicUnd replGroup1 t
    let t := subAll mdStrike replGroup1 t
    let t := subAll mdHRule replEmpty t
    let t := collapseRuns '\n' 3 2 t
    let t := collapseRuns ' ' 2 1 t
    pyStrip t

/-! ## Chunker (`split_long_message`, main.py:580-609) -/

/-- The paragraph separator `"\n\n"`. -/
def nl2 : List Char := ['\n', '\n']

/-- `text.split('\n\n')`. -/
def paragraphsOf (text : List Char) : List (List Char) := splitSep '\n' ['\n'] text

/-- One step of the greedy paragraph packer (the loop body of
main.py:593-603); the accumulator is `(chunks, current_chunk)`. -/
def chunkStep (maxLength : Nat) (acc : List (List Char) × List Char) (p : List Char) :
    List (List Char) × List Char :=
  if maxLength < acc.2.length + p.length + 2 then
    ((if acc.2.isEmpty then acc.1 else acc.1 ++ [pyStrip acc.2]), p)
  else
    (acc.1, if acc.2.isEmpty then p else acc.2 ++ nl2 ++ p)

/-- `split_long_message`, main.py:580-609. -/
def split_long_message (text : List Char) (maxLength : Nat) : List (List Char) :=
  if text.length ≤ maxLength then [text]
  else
    let folded := (paragraphsOf text).foldl (chunkStep maxLength) ([], [])
    let chunks := if folded.2.isEmpty then folded.1 else folded.1 ++ [pyStrip folded.2]
    if chunks.isEmpty then [text.take maxLength] else chunks

/-! ## Backend client (`ask_openrouter`, main.py:183-235)

The network call is an external collaborator; its observable behaviours are a
2xx body, a non-200 status, or a raised transport exception. -/

inductive Outcome where
  | success (text : String)
  | httpError (status : Nat)
  | exn (msg : String)
deriving DecidableEq, Repr

/-- The call failed: non-200 status or raised transport exception. -/
def isFailureOutcome : Outcome → Bool
  | .success _ => false
  | .httpError _ => true
  | .exn _ => true

/-- The body of `ask_openrouter`'s `try` block: a non-200 response returns an
error string (no exception), a transport failure raises. -/
def ask_openrouter_body (model : String) : Outcome → Except String String
  | .success t => .ok t
  | .httpError status => .ok s!"Error from {model}: API returned status {status}"
  | .exn e => .error e

/-- `ask_openrouter`: the surrounding `except Exception` converts any raised
exception into an error string, so the function always returns text. -/
def ask_openrouter (model : String) (o : Outcome) : String :=
  match ask_openrouter_body model o with
  | .ok t => t
  | .error e => s!"Error from {model}: {e}"

/-! ## Fan-out orchestrator (`query_model_with_status`,
`ask_selected_models` / `ask_quorum`, main.py:253-287 and 337-390)

`asyncio.gather` runs one task per backend and returns their results in
submission order.  We model the concurrent execution by an explicit
completion schedule: a list of task indices in the order the backend calls
finish.  Each completing task writes its own result slot and flips its own
status entry; the gathered output reads the slots in submission order. -/

/-- `status_dict[name] = v` (update in place, append when absent — the dict
is pre-populated with every backend name in submission order). -/
def setStatus : List (String × String) → String → String → List (String × String)
  | [], u, v => [(u, v)]
  | e :: rest, u, v =>
    if e.1 = u then (u, v) :: rest else e :: setStatus rest u v

/-- `query_model_with_status`'s interaction with the status board and its
return value.  `editExn` is the exception raised by `status_msg.edit_text`,
if any: the backend call itself never raises (see `ask_openrouter`), so the
`except` branch runs only when the status edit does.  Inside the `try` the
dict entry is set to "done" before the edit; the `except` branch then
overwrites it with "error". -/
def query_model_with_status (model_id model_name : String) (o : Outcome)
    (editExn : Option String) (status : List (String × String)) :
    List (String × String) × (String × String) :=
  let response := ask_openrouter model_id o
  let statusDone := setStatus status model_name "done"
  match editExn with
  | none => (statusDone, (model_name, response))
  | some e => (setStatus statusDone model_name "error", (model_name, s!"Error: {e}"))

/-- The per-model result, as returned by `query_model_with_status` when the
status edit does not raise: the display name paired with the model's response
or error text. -/
def queryResult (env : Nat → Outcome) (i : Nat) (m : String × String) : String × String :=
  (m.2, ask_openrouter m.1 (env i))

/-- The shared state of one fan-out: the status dict and one result slot per
submitted task. -/
structure FanState where
  status : List (String × String)
  slots : List (Option (String × String))
deriving Repr

/-- `status_dict = {model_name: "waiting.." for _, model_name in models}`
plus the empty result slots of the pending `asyncio.gather`. -/
def initFan (models : List (String × String)) : FanState :=
  { status := models.map (fun m => (m.2, "waiting..")),
    slots := List.replicate models.length none }

/-- Task `i` completes: under the status lock it marks itself done and fills
its own slot.  `env i` is the backend outcome observed by task `i`. -/
def runTask (models : List (String × String)) (env : Nat → Outcome) (st : FanState)
    (i : Nat) : FanState :=
  match models[i]? with
  | none => st
  | some m =>
    { status := setStatus st.status m.2 "done",
      slots := st.slots.set i (some (queryResult env i m)) }

/-- Run the whole fan-out under completion schedule `sched`. -/
def runSchedule (models : List (String × String)) (env : Nat → Outcome)
    (sched : List Nat) (st : FanState) : FanState :=
  sched.foldl (runTask models env) st

/-- What `await asyncio.gather(*tasks)` returns: the result slots in
submission order, after every task has completed. -/
def gatherResults (models : List (String × String)) (env : Nat → Outcome)
    (sched : List Nat) : List (String × String) :=
  (runSchedule models env sched (initFan models)).slots.map (fun s => s.getD ("", ""))

/-- The formatted answer of `ask_selected_models`, main.py:361-366. -/
def ask_selected_models (models : List (String × String)) (env : Nat → Outcome)
    (sched : List Nat) : String :=
  String.mk (joinSep "\n\n---\n\n".data
    ((gatherResults models env sched).map (fun r => ("**" ++ r.1 ++ ":**\n" ++ r.2).data)))

/-- The submission-order result list: one entry per backend, its display name
paired with its own response (or error text), independent of any schedule. -/
def submissionResults (env : Nat → Outcome) : Nat → List (String × String) →
    List (String × String)
  | _, [] => []
  | i, m :: ms => queryResult env i m :: submissionResults env (i + 1) ms

/-! ## The q2 command parser (`parse_q2_models`, main.py:290-334) -/

/-- `AVAILABLE_MODELS`, main.py:89-96, in dict insertion order. -/
def AVAILABLE_MODELS : List (String × (String × String)) :=
  [("deepseek", ("deepseek/deepseek-chat", "DeepSeek")),
   ("chatgpt", ("openai/gpt-4o", "ChatGPT")),
   ("grok", ("x-ai/grok-4-fast", "Grok")),
   ("claude", ("anthropic/claude-4.5-sonnet", "Claude")),
   ("gpt4", ("openai/gpt-4o", "ChatGPT")),
   ("gpt-4o", ("openai/gpt-4o", "ChatGPT"))]

/-- Dict lookup in `AVAILABLE_MODELS`. -/
def availableLookup (name : List Char) : Option (String × String) :=
  match AVAILABLE_MODELS.find? (fun e => e.1.data = name) with
  | some e => some e.2
  | none => none

/-- `', '.join(...)`. -/
def joinCommaSp (xs : List (List Char)) : List Char := joinSep ", ".data xs

/-- The names in the parenthesized list of a q2 command, lowercased and
stripped (main.py:315), given the index of the first `)`. -/
def q2Names (cs : List Char) (paren_end : Nat) : List (List Char) :=
  (splitSep ',' [] (pyStrip ((cs.drop 3).take (paren_end - 3)))).map
    (fun nm => lowerStr (pyStrip nm))

/-- `parse_q2_models`, main.py:290-334.  `.error` is the
`(None, error_message)` return, `.ok` the `(selected_models, question)`. -/
def parse_q2_models (command_text : List Char) : Except String (List (String × String) × String) :=
  if ¬ ("q2(".data.isPrefixOf command_text) then .error "Invalid q2 format"
  else
    match findSepIdx [')'] command_text with
    | none => .error "Missing closing parenthesis in q2 command"
    | some paren_end =>
      let models_str := pyStrip ((command_text.drop 3).take (paren_end - 3))
      let question := pyStrip (command_text.drop (paren_end + 1))
      if models_str.isEmpty then .error "No models specified in q2 command"
      else if question.isEmpty then .error "No question provided in q2 command"
      else
        let model_names := (splitSep ',' [] models_str).map (fun nm => lowerStr (pyStrip nm))
        let selected_models := model_names.filterMap availableLookup
        let invalid_models := model_names.filter (fun nm => (availableLookup nm).isNone)
        if ¬ invalid_models.isEmpty then
          .error (String.mk ("Unknown models: ".data ++ joinCommaSp invalid_models ++
            ". Available: ".data ++ joinCommaSp (AVAILABLE_MODELS.map (fun e => e.1.data))))
        else if selected_models.isEmpty then .error "No valid models specified"
        else .ok (selected_models, String.mk question)

/-! ## Session store

`db.py` is not part of the sources; only its call sites are.  Modelled from
the spec: an append-only log of chat records, with the battle flag derived
from the log as the spec's BattleSession contract requires (`started_at` set
iff `active`; transitions only via the explicit start/stop commands, which
`main.py` persists as records whose text begins with `start_battle` /
`stop_battle`). -/

structure ChatRecord where
  chatId : Int
  userId : Nat
  username : String
  text : String
  ts : Nat
deriving DecidableEq, Repr

/-- A record that is a battle-state transition command. -/
def isBattleCmd (r : ChatRecord) : Bool :=
  "start_battle".data.isPrefixOf r.text.data || "stop_battle".data.isPrefixOf r.text.data

/-- The most recent battle command in the log. -/
def lastBattleCmd (st : List ChatRecord) : Option ChatRecord :=
  st.foldl (fun acc r => if isBattleCmd r then some r else acc) none

/-- Modelled from the spec: `is_battle_mode_active` of the absent `db.py` —
`battleStatus() -> (active, startedAt)`; the battle is active iff the most
recent start/stop command in the log is a start, and `startedAt` is its
timestamp (set iff active, as the BattleSession invariant requires). -/
def is_battle_mode_active (st : List ChatRecord) : Bool × Option Nat :=
  match lastBattleCmd st with
  | some r =>
    if "start_battle".data.isPrefixOf r.text.data then (true, some r.ts) else (false, none)
  | none => (false, none)

/-- Modelled from the spec: `get_last_battle_start` of the absent `db.py` —
`lastBattleStart() -> timestamp|none`, the timestamp of the most recent
`start_battle` record regardless of later stops. -/
def get_last_battle_start (st : List ChatRecord) : Option Nat :=
  st.foldl (fun acc r => if "start_battle".data.isPrefixOf r.text.data then some r.ts else acc)
    none

/-- Modelled from the spec: `save_message_to_db` of the absent `db.py` —
`append(chatId, authorId, authorName, text)`, an atomic append to the log. -/
def save_message_to_db (st : List ChatRecord) (chatId : Int) (userId : Nat)
    (username text : String) (ts : Nat) : List ChatRecord :=
  st ++ [⟨chatId, userId, username, text, ts⟩]

/-! ## Scoreboard and battle summary (main.py:612-715) -/

/-- `format_scoreboard`, main.py:612-636.  `sorted(..., reverse=True)` is
stable, so ties keep encounter order. -/
def format_scoreboard (scores : List (String × Nat)) : String :=
  if scores.isEmpty then "**Scoreboard:**\n\nUnable to extract scores from summary."
  else
    let sorted_scores := scores.mergeSort (fun a b => b.2 ≤ a.2)
    let medals := ["🥇", "🥈", "🥉"]
    let lines := ["**🏆 Scoreboard:**\n"] ++
      (List.range sorted_scores.length).filterMap (fun idx =>
        match sorted_scores[idx]? with
        | some e => some ((medals.getD idx "  ") ++ " **" ++ e.1 ++ "**: " ++
            toString e.2 ++ " points")
        | none => none)
    let winner := (sorted_scores.headD ("", 0)).1
    let winner_score := (sorted_scores.headD ("", 0)).2
    String.intercalate "\n"
      (lines ++ [s!"\n**🎉 Winner: {winner}** with {toString winner_score} points!"])

/-- The error string `generate_battle_summary` produces when the designated
summary backend fails (main.py:703 for a non-200 status, main.py:715 for a
raised exception). -/
def summaryErrorText : Outcome → String
  | .success _ => ""
  | .httpError status => s!"Error generating battle summary: API returned status {status}"
  | .exn e => s!"Error generating battle summary: {e}"

/-- `generate_battle_summary`, main.py:639-715: with no recorded battle start
it returns early; otherwise the designated backend (`FINAL_MODEL`) is asked
for a summary — on success the scores are parsed out of the text, on failure
the summary is the error string and the score table is empty. -/
def generate_battle_summary (st : List ChatRecord) (o : Outcome) :
    String × List (String × Nat) :=
  match get_last_battle_start st with
  | none => ("No battle history found.", [])
  | some _ =>
    match o with
    | .success text => (text, parse_scores_from_summary text.data)
    | .httpError status => (summaryErrorText (.httpError status), [])
    | .exn e => (summaryErrorText (.exn e), [])

/-! ## The command dispatcher (`handle_message`, main.py:718-889)

Only target-chat text messages with a sender reach the modelled logic (the
guards at main.py:724-740 drop everything else).  An inbound message is
handled against the current store; the backend outcomes are parameters
(`env i` for the i-th fanned-out call, `finalO` for the single designated
synthesis/summary backend), as is the completion schedule of the concurrent
calls.  `replies` collects the user-visible messages in their final state
(a reply that is later edited is represented by its final text), and
`dispatched` the backends actually called. -/

def TRIGGER : String := "q1 "

/-- `QUORUM_MODELS`, main.py:81-85. -/
def QUORUM_MODELS : List (String × String) :=
  [("deepseek/deepseek-chat", "DeepSeek"),
   ("openai/gpt-4o", "ChatGPT"),
   ("x-ai/grok-4-fast", "Grok")]

/-- `FINAL_MODEL`, main.py:86. -/
def FINAL_MODEL : String × String := ("anthropic/claude-4.5-sonnet", "Claude")

/-- main.py:49-72. -/
def START_BATTLE_MESSAGE : String :=
  "🎮 Battle Mode Started!\n\nWelcome to the XLN Battle Arena! Here's how it works:\n\n**Objective:**\nCritique XLN project, propose better solutions with clear justification, and compete for the highest score!\n\n**Rules:**\n- Each participant should provide constructive criticism of XLN\n- Propose better solutions with clear reasoning and justification\n- Multiple AI models will analyze and evaluate your arguments\n- Each participant will receive a score from 0 to 1000 based on:\n  - Quality and depth of critique\n  - Clarity and validity of proposed solutions\n  - Strength of arguments and justification\n  - Overall contribution to the discussion\n\n**How to participate:**\n- Use `q1 \x7byour critique or proposal\x7d` to submit your arguments\n- Be specific, constructive, and provide clear justifications\n- The battle continues until someone calls `stop_battle`\n- At the end, scores will be announced and a winner declared\n\nLet the battle begin! ⚔️"

/-- main.py:74-78. -/
def STOP_BATTLE_MESSAGE : String :=
  "🏁 Battle Mode Ended!\n\nThe battle has concluded. Thanks to all participants!\n\nAll responses and insights from this battle session have been recorded."

/-- main.py:751. -/
def startBattleActiveError : String :=
  "❌ Error: Battle is already active. Stop the current battle first with `stop_battle` command."

/-- main.py:769. -/
def stopBattleIdleError : String :=
  "❌ Error: No active battle found. Start a battle first with `start_battle` command."

structure MsgIn where
  chatId : Int
  userId : Nat
  username : String
  text : String
  ts : Nat
deriving DecidableEq, Repr

structure HandleOut where
  store : List ChatRecord
  replies : List String
  dispatched : List (String × String)
deriving DecidableEq, Repr

/-- `ask_quorum`'s returned text (main.py:369-479): the fan-out runs, then
the designated `FINAL_MODEL` synthesizes; its failure is caught and reported
as an error string exactly as in `ask_openrouter` but labelled `Claude`. -/
def ask_quorum (finalO : Outcome) : String :=
  match finalO with
  | .success t => t
  | .httpError status => s!"Error from Claude: API returned status {status}"
  | .exn e => s!"Error from Claude: {e}"

/-- `r'\*\*([^*]+):\*\*'`, the model-label pattern of the q2 response
post-processing (main.py:836). -/
def q2LabelPat : RE := seqs [reLit false "**",
  .grp 1 (.rep (.cls (fun c => c ≠ '*')) 1 none true), reLit false ":**"]

/-- Python `re.match`: the pattern anchored at the start of the subject. -/
def reMatchStart (re : RE) (cs : List Char) :
    Option (List Char × List (Nat × List Char)) :=
  reMatch (reFuel re cs) re none cs [] (fun _ cs2 gs2 => some (cs2, gs2))

/-- Cleaning of one q2 response part, main.py:834-844. -/
def q2CleanPart (part : List Char) : List Char :=
  match reMatchStart q2LabelPat part with
  | some (_, gs) =>
    let model_name := findGroup gs 1
    let content := remove_markdown (pyStrip (subAll q2LabelPat replEmpty part))
    "**".data ++ model_name ++ ":**\n".data ++ content
  | none => remove_markdown part

/-- The q2 response post-processing, main.py:830-846. -/
def q2CleanResponse (response : List Char) : List Char :=
  joinSep "\n\n---\n\n".data
    ((splitSep '\n' "\n---\n\n".data response).map q2CleanPart)

/-- `handle_message`, main.py:718-889.  Branches in source order:
`start_battle`, `stop_battle`, the general history append (skipped for `q2(`
commands), the `q2(...)` command, the `q1 ` trigger, and the default
archive-only path. -/
def handle_message (st : List ChatRecord) (m : MsgIn) (env : Nat → Outcome)
    (sched : List Nat) (finalO : Outcome) : HandleOut :=
  if "start_battle".data.isPrefixOf m.text.data then
    if (is_battle_mode_active st).1 then
      { store := st, replies := [startBattleActiveError], dispatched := [] }
    else
      { store := save_message_to_db st m.chatId m.userId m.username m.text m.ts,
        replies := [START_BATTLE_MESSAGE], dispatched := [] }
  else if "stop_battle".data.isPrefixOf m.text.data then
    if ¬ (is_battle_mode_active st).1 then
      { store := st, replies := [stopBattleIdleError], dispatched := [] }
    else
      let st2 := save_message_to_db st m.chatId m.userId m.username m.text m.ts
      let summary := generate_battle_summary st2 finalO
      let scoreboard := format_scoreboard summary.2
      let final_message := STOP_BATTLE_MESSAGE ++ "\n\n---\n\n**Battle Summary:**\n\n" ++
        summary.1 ++ "\n\n---\n\n" ++ scoreboard
      { store := st2,
        replies := (split_long_message final_message.data 4000).map String.mk,
        dispatched := [FINAL_MODEL] }
  else
    let st2 :=
      if "q2(".data.isPrefixOf m.text.data then st
      else
        let message_to_save :=
          if TRIGGER.data.isPrefixOf m.text.data then
            String.mk (pyStrip (m.text.data.drop TRIGGER.length))
          else m.text
        save_message_to_db st m.chatId m.userId m.username message_to_save m.ts
    if "q2(".data.isPrefixOf m.text.data then
      match parse_q2_models m.text.data with
      | .error e =>
        { store := st2, replies := ["❌ Error: " ++ e], dispatched := [] }
      | .ok (models, question) =>
        let st3 := save_message_to_db st2 m.chatId m.userId m.username
          ("q2: " ++ question) m.ts
        let response := ask_selected_models models env sched
        let clean_response := q2CleanResponse response.data
        { store := st3,
          replies := (split_long_message clean_response 4000).map String.mk,
          dispatched := models }
    else if TRIGGER.data.isPrefixOf m.text.data then
      let response := ask_quorum finalO
      let clean_response := remove_markdown response.data
      { store := st2,
        replies := (split_long_message clean_response 4000).map String.mk,
        dispatched := QUORUM_MODELS ++ [FINAL_MODEL] }
    else
      { store := st2, replies := [], dispatched := [] }

/-! ## Derived notions used by the statements below -/

/-- All `(username, score)` candidates produced by the six regex strategies
on a text, in strategy-then-match order — exactly the pairs the primary loop
of `parse_scores_from_summary` folds into its table. -/
def primaryCandidates (text : List Char) : List (String × Nat) :=
  (scorePatterns.map (fun p => matchCandidates p text)).flatten

/-- The folded value the primary loop's merge rule computes for one name:
starting from `acc`, each valid (≤ 1000) candidate for `u` is combined by
maximum. -/
def bestScore (u : String) (L : List (String × Nat)) (acc : Option Nat) : Option Nat :=
  L.foldl
    (fun a c =>
      if c.1 = u ∧ c.2 ≤ 1000 then
        match a with
        | none => some c.2
        | some m => some (max m c.2)
      else a) acc

/-- The `(username, score)` pairs the fallback accepts, line by line. -/
def fallbackMatches (text : List Char) : List (String × Nat) :=
  (summaryLines text).filterMap fallbackLine

/-- A piece of text that is nonempty and unchanged by `strip()`. -/
def cleanPiece (cs : List Char) : Prop := cs ≠ [] ∧ pyStrip cs = cs

/-- The characters that can begin a match of one of `remove_markdown`'s
twelve regex passes. -/
def mdSpecialChars : List Char := ['`', '[', '#', '*', '_', '~', '-']

/-- A maximal-run-free text: text free of markup metacharacters, of triple
newlines and of double spaces, and equal to its own strip — on such texts
every pass of `remove_markdown` is the identity. -/
def mdPlain (cs : List Char) : Prop :=
  (∀ c ∈ cs, c ∉ mdSpecialChars) ∧
  containsSub (List.replicate 3 '\n') cs = false ∧
  containsSub (List.replicate 2 ' ') cs = false ∧
  pyStrip cs = cs

/-! # Score-table lemmas -/

theorem lookupScore_setScore (sc : List (String × Nat)) (u : String) (v : Nat)
    (w : String) :
    lookupScore (setScore sc u v) w = if u = w then some v else lookupScore sc w := by
  induction sc with
  | nil =>
    by_cases h : u = w <;> simp [setScore, lookupScore, h]
  | cons e rest ih =>
    simp only [setScore]
    by_cases h1 : e.1 = u
    · rw [if_pos h1]
      by_cases h2 : u = w
      · simp [lookupScore, h2]
      · have he : ¬ e.1 = w := by rw [h1]; exact h2
        simp [lookupScore, h2, he]
    · rw [if_neg h1]
      by_cases h2 : e.1 = w
      · have hu : ¬ u = w := fun hh => h1 (by rw [hh, h2])
        simp [lookupScore, h2, hu]
      · simp [lookupScore, h2, ih]

theorem lookupScore_append (a b : List (String × Nat)) (u : String) :
    lookupScore (a ++ b) u =
      match lookupScore a u with
      | some v => some v
      | none => lookupScore b u := by
  induction a with
  | nil => simp [lookupScore]
  | cons e rest ih =>
    by_cases h : e.1 = u <;> simp [lookupScore, h, ih]

theorem mem_setScore (sc : List (String × Nat)) (u : String) (v : Nat)
    (e : String × Nat) (he : e ∈ setScore sc u v) : e = (u, v) ∨ e ∈ sc := by
  induction sc with
  | nil => simpa [setScore] using he
  | cons e1 rest ih =>
    by_cases h : e1.1 = u
    · simp only [setScore, h, if_pos rfl] at he
      rcases List.mem_cons.mp he with h2 | h2
      · exact Or.inl h2
      · exact Or.inr (List.mem_cons_of_mem _ h2)
    · simp only [setScore, h, if_neg h] at he
      rcases List.mem_cons.mp he with h2 | h2
      · exact Or.inr (h2 ▸ List.mem_cons_self _ _)
      · rcases ih h2 with h3 | h3
        · exact Or.inl h3
        · exact Or.inr (List.mem_cons_of_mem _ h3)

theorem mem_addScore (sc : List (String × Nat)) (u : String) (n : Nat)
    (e : String × Nat) (he : e ∈ addScore sc u n) :
    e ∈ sc ∨ (e = (u, n) ∧ n ≤ 1000) := by
  unfold addScore at he
  by_cases hn : n ≤ 1000
  · simp only [hn, if_pos] at he
    cases h : lookupScore sc u with
    | none =>
      rw [h] at he
      rcases List.mem_append.mp he with h2 | h2
      · exact Or.inl h2
      · simp at h2
        exact Or.inr ⟨h2, hn⟩
    | some m =>
      rw [h] at he
      by_cases hm : m < n
      · simp only [hm, if_pos] at he
        rcases mem_setScore _ _ _ _ he with h2 | h2
        · exact Or.inr ⟨h2, hn⟩
        · exact Or.inl h2
      · simp only [hm, if_neg] at he
        exact Or.inl he
  · simp only [hn, if_neg] at he
    exact Or.inl he

/-- The primary merge rule at one candidate, as a table-lookup rewrite. -/
theorem lookupScore_addScore (sc : List (String × Nat)) (u : String) (n : Nat)
    (w : String) :
    lookupScore (addScore sc u n) w =
      if u = w ∧ n ≤ 1000 then
        match lookupScore sc w with
        | none => some n
        | some m => some (max m n)
      else lookupScore sc w := by
  unfold addScore
  by_cases hn : n ≤ 1000
  · simp only [hn, and_true, if_pos]
    cases h : lookupScore sc u with
    | none =>
      rw [lookupScore_append]
      by_cases hw : u = w
      · subst hw
        simp [h, lookupScore]
      · simp only [hw, if_neg, if_false]
        cases h2 : lookupScore sc w <;> simp [lookupScore, hw, h2]
    | some m =>
      by_cases hm : m < n
      · simp only [hm, if_pos]
        rw [lookupScore_setScore]
        by_cases hw : u = w
        · subst hw
          simp [h, Nat.max_eq_right (Nat.le_of_lt hm)]
        · simp [hw]
      · simp only [hm, if_neg]
        by_cases hw : u = w
        · subst hw
          simp [h, Nat.max_eq_left (Nat.le_of_not_lt hm)]
        · simp [hw]
  · simp [hn]

/-- Folding candidates with the primary merge rule computes `bestScore`. -/
theorem lookupScore_foldl_addScore (L : List (String × Nat)) :
    ∀ (acc : List (String × Nat)) (u : String),
      lookupScore (L.foldl (fun sc c => addScore sc c.1 c.2) acc) u =
        bestScore u L (lookupScore acc u) := by
  induction L with
  | nil => intro acc u; simp [bestScore]
  | cons c L ih =>
    intro acc u
    simp only [List.foldl_cons, bestScore, ih (addScore acc c.1 c.2) u,
      lookupScore_addScore]

theorem bestScore_mono (u : String) (L : List (String × Nat)) :
    ∀ (k : Nat), ∃ n, bestScore u L (some k) = some n ∧ k ≤ n := by
  induction L with
  | nil => intro k; exact ⟨k, rfl, Nat.le_refl k⟩
  | cons c L ih =>
    intro k
    by_cases hc : c.1 = u ∧ c.2 ≤ 1000
    · rcases ih (max k c.2) with ⟨n, hn, hk⟩
      refine ⟨n, ?_, Nat.le_trans (Nat.le_max_left _ _) hk⟩
      simpa [bestScore, hc] using hn
    · rcases ih k with ⟨n, hn, hk⟩
      refine ⟨n, ?_, hk⟩
      simpa [bestScore, hc] using hn

theorem bestScore_mem (u : String) (L : List (String × Nat)) :
    ∀ (acc : Option Nat) (n : Nat), bestScore u L acc = some n →
      acc = some n ∨ ((u, n) ∈ L ∧ n ≤ 1000) := by
  induction L with
  | nil => intro acc n h; exact Or.inl h
  | cons c L ih =>
    intro acc n h
    have hhd : c.1 = u → c.2 ≤ 1000 → n = c.2 → (u, n) ∈ c :: L ∧ n ≤ 1000 := by
      intro h1 h2 h3
      subst h3
      refine ⟨?_, h2⟩
      have : (u, c.2) = c := by
        cases c
        simp_all
      rw [this]
      exact List.mem_cons_self _ _
    by_cases hc : c.1 = u ∧ c.2 ≤ 1000
    · simp only [bestScore, List.foldl_cons, if_pos hc] at h
      cases acc with
      | none =>
        rcases ih (some c.2) n h with h2 | h2
        · injection h2 with h2
          exact Or.inr (hhd hc.1 hc.2 h2.symm)
        · exact Or.inr ⟨List.mem_cons_of_mem _ h2.1, h2.2⟩
      | some m =>
        rcases ih (some (max m c.2)) n h with h2 | h2
        · rcases max_choice m c.2 with hm | hm
          · rw [hm] at h2
            exact Or.inl h2
          · rw [hm] at h2
            injection h2 with h2
            exact Or.inr (hhd hc.1 hc.2 h2.symm)
        · exact Or.inr ⟨List.mem_cons_of_mem _ h2.1, h2.2⟩
    · simp only [bestScore, List.foldl_cons, if_neg hc] at h
      rcases ih acc n h with h2 | h2
      · exact Or.inl h2
      · exact Or.inr ⟨List.mem_cons_of_mem _ h2.1, h2.2⟩

theorem bestScore_ge_mem (u : String) (L : List (String × Nat)) :
    ∀ (acc : Option Nat) (m n : Nat), (u, m) ∈ L → m ≤ 1000 →
      bestScore u L acc = some n → m ≤ n := by
  induction L with
  | nil => intro acc m n hm; simp at hm
  | cons c L ih =>
    intro acc m n hm hv h
    rcases List.mem_cons.mp hm with hh | hh
    · have hc : c.1 = u ∧ c.2 ≤ 1000 := by rw [← hh]; exact ⟨rfl, hv⟩
      have hc2 : c.2 = m := by rw [← hh]
      simp only [bestScore, List.foldl_cons, if_pos hc] at h
      cases acc with
      | none =>
        rw [hc2] at h
        rcases bestScore_mono u L m with ⟨n2, hn2, hle⟩
        rw [show bestScore u L (some m) = L.foldl _ (some m) from rfl] at hn2
        rw [h] at hn2
        injection hn2 with hn2
        omega
      | some k =>
        rw [hc2] at h
        rcases bestScore_mono u L (max k m) with ⟨n2, hn2, hle⟩
        rw [show bestScore u L (some (max k m)) = L.foldl _ (some (max k m)) from rfl] at hn2
        rw [h] at hn2
        injection hn2 with hn2
        have := Nat.le_max_right k m
        omega
    · by_cases hc : c.1 = u ∧ c.2 ≤ 1000
      · simp only [bestScore, List.foldl_cons, if_pos hc] at h
        exact ih _ m n hh hv h
      · simp only [bestScore, List.foldl_cons, if_neg hc] at h
        exact ih _ m n hh hv h

theorem foldl_flatten {α β : Type} (f : β → α → β) :
    ∀ (ls : List (List α)) (b : β),
      ls.flatten.foldl f b = ls.foldl (fun acc l => l.foldl f acc) b := by
  intro ls
  induction ls with
  | nil => intro b; rfl
  | cons l ls ih => intro b; simp [List.foldl_append, ih]

/-- The primary pass is the fold of the merge rule over all strategy
candidates in order. -/
theorem primaryScores_eq (text : List Char) :
    primaryScores text =
      (primaryCandidates text).foldl (fun sc c => addScore sc c.1 c.2) [] := by
  unfold primaryScores primaryCandidates
  rw [foldl_flatten, List.foldl_map]

/-- The last value the fallback writes for a name, `none` when it never
writes one. -/
def lastWrite (u : String) (L : List (String × Nat)) (acc : Option Nat) : Option Nat :=
  L.foldl (fun a c => if c.1 = u then some c.2 else a) acc

theorem lookupScore_foldl_setScore (L : List (String × Nat)) :
    ∀ (acc : List (String × Nat)) (u : String),
      lookupScore (L.foldl (fun sc c => setScore sc c.1 c.2) acc) u =
        lastWrite u L (lookupScore acc u) := by
  induction L with
  | nil => intro acc u; rfl
  | cons c L ih =>
    intro acc u
    simp only [List.foldl_cons, lastWrite, ih (setScore acc c.1 c.2) u,
      lookupScore_setScore]

/-- The fallback pass is the fold of the unconditional write over the
accepted line matches. -/
theorem fallbackScores_eq (text : List Char) :
    fallbackScores text =
      (fallbackMatches text).foldl (fun sc c => setScore sc c.1 c.2) [] := by
  unfold fallbackScores fallbackMatches
  generalize summaryLines text = lines
  suffices h : ∀ (acc : List (String × Nat)),
      lines.foldl
        (fun sc line =>
          match fallbackLine line with
          | some (u, n) => setScore sc u n
          | none => sc) acc =
      (lines.filterMap fallbackLine).foldl (fun sc c => setScore sc c.1 c.2) acc by
    exact h []
  induction lines with
  | nil => intro acc; rfl
  | cons line lines ih =>
    intro acc
    cases h : fallbackLine line with
    | none => simp [List.filterMap_cons, h, ih]
    | some c =>
      cases c with
      | mk cu cn => simp [List.filterMap_cons, h, ih]

theorem fallbackLine_le (line : List Char) (u : String) (n : Nat)
    (h : fallbackLine line = some (u, n)) : n ≤ 1000 := by
  unfold fallbackLine at h
  split at h
  · cases h
  · split at h
    · split at h
      · cases h
      · split at h
        · cases h
        · cases h
          assumption
    · cases h

theorem foldl_addScore_le (L : List (String × Nat)) :
    ∀ (acc : List (String × Nat)), (∀ e ∈ acc, e.2 ≤ 1000) →
      ∀ e ∈ L.foldl (fun sc c => addScore sc c.1 c.2) acc, e.2 ≤ 1000 := by
  induction L with
  | nil => intro acc hacc; exact hacc
  | cons c L ih =>
    intro acc hacc
    refine ih (addScore acc c.1 c.2) ?_
    intro e he
    rcases mem_addScore _ _ _ _ he with h2 | h2
    · exact hacc e h2
    · rw [h2.1]
      exact h2.2

theorem foldl_setScore_le (L : List (String × Nat)) (hL : ∀ c ∈ L, c.2 ≤ 1000) :
    ∀ (acc : List (String × Nat)), (∀ e ∈ acc, e.2 ≤ 1000) →
      ∀ e ∈ L.foldl (fun sc c => setScore sc c.1 c.2) acc, e.2 ≤ 1000 := by
  induction L with
  | nil => intro acc hacc; exact hacc
  | cons c L ih =>
    intro acc hacc
    refine ih (fun c2 hc2 => hL c2 (List.mem_cons_of_mem _ hc2)) (setScore acc c.1 c.2) ?_
    intro e he
    rcases mem_setScore _ _ _ _ he with h2 | h2
    · rw [h2]
      exact hL c (List.mem_cons_self _ _)
    · exact hacc e h2

theorem fallbackMatches_le (text : List Char) :
    ∀ c ∈ fallbackMatches text, c.2 ≤ 1000 := by
  intro c hc
  rcases List.mem_filterMap.mp hc with ⟨line, _, hline⟩
  cases c with
  | mk cu cn => exact fallbackLine_le line cu cn hline

theorem firstDigitIdx_digit (line : List Char) :
    ∀ (i : Nat), firstDigitIdx line = some i →
      ∃ c rest, line.drop i = c :: rest ∧ isDigitChar c = true := by
  induction line with
  | nil => intro i h; cases h
  | cons c cs ih =>
    intro i h
    unfold firstDigitIdx at h
    by_cases hc : isDigitChar c
    · rw [if_pos hc] at h
      cases h
      exact ⟨c, cs, rfl, hc⟩
    · rw [if_neg hc] at h
      rcases Option.map_eq_some'.mp h with ⟨j, hj, rfl⟩
      rcases ih j hj with ⟨c2, rest, hd, hdig⟩
      exact ⟨c2, rest, by simpa using hd, hdig⟩

theorem digitRun_len (line : List Char) (i : Nat)
    (hi : firstDigitIdx line = some i) :
    1 ≤ (((line.drop i).takeWhile isDigitChar).take 4).length ∧
      (((line.drop i).takeWhile isDigitChar).take 4).length ≤ 4 := by
  rcases firstDigitIdx_digit line i hi with ⟨c, rest, hd, hdig⟩
  rw [hd]
  constructor
  · simp [List.takeWhile_cons, hdig]
  · exact List.length_take_le 4 _

/-! # C5: score range and empty-table behaviour -/

/-- C5: every score in the table returned by the score extractor lies in
[0, 1000] — out-of-range numbers are rejected both by the strategy merge
rule and by the fallback guard — and when neither the strategies nor the
fallback match anything, the extractor returns the empty table (it is a
total function: there is no error outcome). -/
theorem parse_scores_range (text : List Char) :
    (∀ e ∈ parse_scores_from_summary text, 0 ≤ e.2 ∧ e.2 ≤ 1000) ∧
    ((∀ p ∈ scorePatterns, matchCandidates p text = []) →
      (∀ line ∈ summaryLines text, fallbackLine line = none) →
      parse_scores_from_summary text = []) := by
  constructor
  · intro e he
    refine ⟨Nat.zero_le _, ?_⟩
    unfold parse_scores_from_summary at he
    by_cases hp : (primaryScores text).isEmpty
    · rw [if_pos hp, fallbackScores_eq] at he
      exact foldl_setScore_le _ (fallbackMatches_le text) [] (by simp) e he
    · rw [if_neg hp, primaryScores_eq] at he
      exact foldl_addScore_le _ [] (by simp) e he
  · intro hpat hline
    have hcand : primaryCandidates text = [] := by
      unfold primaryCandidates
      have h1 := hpat pat1 (by simp [scorePatterns])
      have h2 := hpat pat2 (by simp [scorePatterns])
      have h3 := hpat pat3 (by simp [scorePatterns])
      have h4 := hpat pat4 (by simp [scorePatterns])
      have h5 := hpat pat5 (by simp [scorePatterns])
      have h6 := hpat pat6 (by simp [scorePatterns])
      simp [scorePatterns, h1, h2, h3, h4, h5, h6]
    have hprim : primaryScores text = [] := by
      rw [primaryScores_eq, hcand]
      rfl
    have hfall : fallbackScores text = [] := by
      rw [fallbackScores_eq]
      have : fallbackMatches text = [] := by
        unfold fallbackMatches
        exact List.filterMap_eq_nil_iff.mpr hline
      rw [this]
      rfl
    unfold parse_scores_from_summary
    rw [hprim, hfall]
    rfl

theorem parse_scores_range_witness :
    (("a", 7) ∈ parse_scores_from_summary "a: 7".data ∧ 0 ≤ 7 ∧ 7 ≤ 1000) ∧
    parse_scores_from_summary "xq".data = [] :=
  ⟨⟨by decide, (parse_scores_range "a: 7".data).1 ("a", 7) (by decide)⟩,
   (parse_scores_range "xq".data).2 (by decide) (by decide)⟩

/-! # C4: duplicate names keep the maximum — only on the strategy path -/

/-- C4 counterexample: on `"alice 500\nalice 300"` no strategy matches, the
fallback accepts the valid score 500 for alice on the first line and then
the valid score 300 on the second line, and the final table maps alice to
300 — not to the maximum 500 of its valid matches. -/
theorem parse_scores_fallback_overwrites :
    fallbackLine "alice 500".data = some ("alice", 500) ∧
    fallbackLine "alice 300".data = some ("alice", 300) ∧
    parse_scores_from_summary "alice 500\nalice 300".data = [("alice", 300)] :=
  ⟨by decide, by decide, by decide⟩

/-- C4 (amended): on the regex-strategy path the table maps each name to the
maximum of all its valid (≤ 1000) matched scores — an already-recorded score
is never overwritten by a lower later match there; the line-by-line fallback
instead overwrites unconditionally, so its entry for a name is the last
accepted match for that name. -/
theorem parse_scores_max_and_lastwrite (text : List Char) (u : String) (n : Nat) :
    (lookupScore (primaryScores text) u = some n →
      (u, n) ∈ primaryCandidates text ∧ n ≤ 1000 ∧
        ∀ m, (u, m) ∈ primaryCandidates text → m ≤ 1000 → m ≤ n) ∧
    lookupScore (fallbackScores text) u = lastWrite u (fallbackMatches text) none := by
  constructor
  · intro h
    rw [primaryScores_eq, lookupScore_foldl_addScore] at h
    have hb : bestScore u (primaryCandidates text) none = some n := h
    rcases bestScore_mem u _ none n hb with h2 | h2
    · cases h2
    · exact ⟨h2.1, h2.2, fun m hm hv => bestScore_ge_mem u _ none m n hm hv hb⟩
  · rw [fallbackScores_eq, lookupScore_foldl_setScore]
    rfl

theorem parse_scores_max_witness :
    ("a", 7) ∈ primaryCandidates "a: 7".data ∧ 7 ≤ 1000 :=
  ⟨((parse_scores_max_and_lastwrite "a: 7".data "a" 7).1 (by decide)).1,
   ((parse_scores_max_and_lastwrite "a: 7".data "a" 7).1 (by decide)).2.1⟩

/-! # C6: when the fallback runs and what it matches -/

/-- C6 counterexample: on `"a 5"` the ordered strategies find nothing, and
the fallback matches the one-digit number 5 (the pattern is `\d{1,4}`, not
3–4 digits) and records it. -/
theorem fallback_matches_one_digit :
    primaryScores "a 5".data = [] ∧
    parse_scores_from_summary "a 5".data = [("a", 5)] ∧
    (((("a 5".data).drop 2).takeWhile isDigitChar).take 4).length = 1 :=
  ⟨by decide, by decide, by decide⟩

/-- C6 (amended): the line-by-line fallback runs exactly when the ordered
strategies found nothing; it matches the line's leftmost run of 1–4 digits
(not only 3–4), and associates the value with the first word token before it
on the same line, unless that token is in the header-word stoplist. -/
theorem fallback_characterisation :
    (∀ text, (primaryScores text).isEmpty = false →
      parse_scores_from_summary text = primaryScores text) ∧
    (∀ text, (primaryScores text).isEmpty = true →
      parse_scores_from_summary text = fallbackScores text) ∧
    (∀ line u n, fallbackLine line = some (u, n) →
      ∃ i w, firstDigitIdx line = some i ∧
        1 ≤ (((line.drop i).takeWhile isDigitChar).take 4).length ∧
        (((line.drop i).takeWhile isDigitChar).take 4).length ≤ 4 ∧
        n = digitsVal (((line.drop i).takeWhile isDigitChar).take 4) ∧ n ≤ 1000 ∧
        firstWordTok (line.take i) = some w ∧ u = String.mk w ∧
        lowerStr w ∉ scoreStoplist) := by
  refine ⟨?_, ?_, ?_⟩
  · intro text h
    unfold parse_scores_from_summary
    rw [h]
    rfl
  · intro text h
    unfold parse_scores_from_summary
    rw [h]
    rfl
  · intro line u n h
    unfold fallbackLine at h
    split at h
    · cases h
    · rename_i i hi
      split at h
      · rename_i hle
        split at h
        · cases h
        · rename_i w hw
          split at h
          · cases h
          · rename_i hstop
            cases h
            rcases digitRun_len line i hi with ⟨hl1, hl2⟩
            exact ⟨i, w, hi, hl1, hl2, rfl, hle, hw, rfl, hstop⟩
      · cases h

theorem fallback_characterisation_witness :
    parse_scores_from_summary "a: 7".data = primaryScores "a: 7".data ∧
    parse_scores_from_summary "a 5".data = fallbackScores "a 5".data :=
  ⟨fallback_characterisation.1 "a: 7".data (by decide),
   fallback_characterisation.2.1 "a 5".data (by decide)⟩

/-! # C7: idempotence of the markup stripper

Machinery: a pattern in the class `FirstCharIs f` can only match at a
position whose first character satisfies `f`; all twelve regex passes of
`remove_markdown` are in the class for `f = mdSpecial`, so on text free of
those characters every pass is the identity. -/

/-- `mdSpecialChars` membership as a Bool predicate. -/
def mdSpecial (c : Char) : Bool := mdSpecialChars.contains c

theorem orElse_eq_some {α : Type} (x : Option α) (y : Unit → Option α) (v : α)
    (h : x.orElse y = some v) : x = some v ∨ y () = some v := by
  cases x with
  | some a => exact Or.inl h
  | none => exact Or.inr h

/-- Syntactic criterion: any successful match of the pattern consumes at
least one character and its first consumed character satisfies `f`. -/
inductive FirstCharIs (f : Char → Bool) : RE → Prop where
  | cls (g : Char → Bool) (h : ∀ c, g c = true → f c = true) : FirstCharIs f (.cls g)
  | seq_left (a b : RE) : FirstCharIs f a → FirstCharIs f (.seq a b)
  | seq_bol (b : RE) : FirstCharIs f b → FirstCharIs f (.seq .bol b)
  | grp (i : Nat) (r : RE) : FirstCharIs f r → FirstCharIs f (.grp i r)
  | rep (r : RE) (lo : Nat) (hi : Option Nat) (g : Bool) (hlo : 1 ≤ lo) :
      FirstCharIs f r → FirstCharIs f (.rep r lo hi g)

theorem reMatch_firstChar {α : Type} {f : Char → Bool} {re : RE}
    (hfc : FirstCharIs f re) :
    ∀ (fuel : Nat) (prev : Option Char) (cs : List Char)
      (gs : List (Nat × List Char))
      (k : Option Char → List Char → List (Nat × List Char) → Option α) (v : α),
      reMatch fuel re prev cs gs k = some v →
      ∃ c rest, cs = c :: rest ∧ f c = true := by
  induction hfc with
  | cls g h =>
    intro fuel prev cs gs k v hm
    cases fuel with
    | zero => cases hm
    | succ f1 =>
      cases cs with
      | nil => cases hm
      | cons c rest =>
        by_cases hg : g c = true
        · exact ⟨c, rest, rfl, h c hg⟩
        · rw [show reMatch (f1 + 1) (.cls g) prev (c :: rest) gs k =
              (if g c then k (some c) rest gs else none) from rfl] at hm
          rw [if_neg (by simpa using hg)] at hm
          cases hm
  | seq_left a b ha ih =>
    intro fuel prev cs gs k v hm
    cases fuel with
    | zero => cases hm
    | succ f1 => exact ih f1 prev cs gs _ v hm
  | seq_bol b hb ih =>
    intro fuel prev cs gs k v hm
    cases fuel with
    | zero => cases hm
    | succ f1 =>
      cases f1 with
      | zero => cases hm
      | succ f2 =>
        rw [show reMatch (f2 + 1 + 1) (.seq .bol b) prev cs gs k =
            (if prev = none ∨ prev = some '\n' then
              reMatch (f2 + 1) b prev cs gs k else none) from rfl] at hm
        split at hm
        · exact ih (f2 + 1) prev cs gs k v hm
        · cases hm
  | grp i r hr ih =>
    intro fuel prev cs gs k v hm
    cases fuel with
    | zero => cases hm
    | succ f1 => exact ih f1 prev cs gs _ v hm
  | rep r lo hi g hlo hr ih =>
    intro fuel prev cs gs k v hm
    cases fuel with
    | zero => cases hm
    | succ f1 =>
      have hlo0 : ¬ lo = 0 := by omega
      cases g with
      | true =>
        have hm2 : ((if hi = some 0 then none
            else reMatch f1 r prev cs gs (fun p cs2 gs2 =>
              if cs2.length < cs.length then
                reMatch f1 (.rep r (lo - 1) (hi.map (fun m => m - 1)) true) p cs2 gs2 k
              else none)).orElse
            (fun _ => if lo = 0 then k prev cs gs else none)) = some v := hm
        rcases orElse_eq_some _ _ _ hm2 with hgo | hstop
        · split at hgo
          · cases hgo
          · exact ih f1 prev cs gs _ v hgo
        · rw [if_neg hlo0] at hstop
          cases hstop
      | false =>
        have hm2 : ((if lo = 0 then k prev cs gs else none).orElse
            (fun _ => if hi = some 0 then none
              else reMatch f1 r prev cs gs (fun p cs2 gs2 =>
                if cs2.length < cs.length then
                  reMatch f1 (.rep r (lo - 1) (hi.map (fun m => m - 1)) false) p cs2 gs2 k
                else none))) = some v := hm
        rcases orElse_eq_some _ _ _ hm2 with hstop | hgo
        · rw [if_neg hlo0] at hstop
          cases hstop
        · split at hgo
          · cases hgo
          · exact ih f1 prev cs gs _ v hgo

/-- A `FirstCharIs f` pattern cannot match at a position whose first
character fails `f` (nor at the end of the subject). -/
theorem reTryHere_none {f : Char → Bool} {re : RE} (hfc : FirstCharIs f re)
    (prev : Option Char) (cs : List Char)
    (h : ∀ c ∈ cs.head?, f c = false) : reTryHere re prev cs = none := by
  cases hm : reTryHere re prev cs with
  | none => rfl
  | some w =>
    unfold reTryHere at hm
    rcases reMatch_firstChar hfc _ _ _ _ _ _ hm with ⟨c, rest, hc, hf⟩
    subst hc
    rw [h c rfl] at hf
    cases hf

/-- On a subject none of whose characters satisfies `f`, a `FirstCharIs f`
pattern matches nowhere. -/
theorem reSearchAux_none {f : Char → Bool} {re : RE} (hfc : FirstCharIs f re) :
    ∀ (cs : List Char) (prev : Option Char), (∀ c ∈ cs, f c = false) →
      reSearchAux re prev cs = none := by
  intro cs
  induction cs with
  | nil =>
    intro prev h
    unfold reSearchAux
    rw [reTryHere_none hfc prev [] (by intro c hc; cases hc)]
  | cons c rest ih =>
    intro prev h
    unfold reSearchAux
    rw [reTryHere_none hfc prev (c :: rest)
      (by intro c2 hc2; cases hc2; exact h c (List.mem_cons_self _ _))]
    exact ih (some c) (fun c2 hc2 => h c2 (List.mem_cons_of_mem _ hc2))

/-- A pass whose pattern cannot match leaves the text unchanged. -/
theorem subAll_id {f : Char → Bool} {re : RE} (hfc : FirstCharIs f re)
    (repl : List (Nat × List Char) → List Char) (cs : List Char)
    (h : ∀ c ∈ cs, f c = false) : subAll re repl cs = cs := by
  unfold subAll subAux
  rw [reSearchAux_none hfc cs none h]

theorem firstCharIs_seqs_cons (f : Char → Bool) (r : RE) (rs : List RE)
    (h : FirstCharIs f r) : FirstCharIs f (seqs (r :: rs)) :=
  .seq_left _ _ h

theorem firstCharIs_seqs_bol (f : Char → Bool) (r : RE) (rs : List RE)
    (h : FirstCharIs f (seqs (r :: rs))) : FirstCharIs f (seqs (.bol :: r :: rs)) :=
  .seq_bol _ h

theorem firstCharIs_reLitF (f : Char → Bool) (s : String) (c0 : Char)
    (rest : List Char) (hs : s.data = c0 :: rest) (h : f c0 = true) :
    FirstCharIs f (reLit false s) := by
  unfold reLit
  rw [hs]
  exact firstCharIs_seqs_cons _ _ _ (.cls _ (by
    intro c hc
    have hc2 : c = c0 := by simpa using hc
    rw [hc2]
    exact h))

theorem fc_mdCodeBlock : FirstCharIs mdSpecial mdCodeBlock :=
  firstCharIs_seqs_cons _ _ _ (firstCharIs_reLitF _ "```" '`' ['`', '`'] (by decide) (by decide))

theorem fc_mdInlineCode : FirstCharIs mdSpecial mdInlineCode :=
  firstCharIs_seqs_cons _ _ _ (.cls _ (by
    intro c hc
    have hc2 : c = '`' := by simpa using hc
    rw [hc2]
    decide))

theorem fc_mdLink : FirstCharIs mdSpecial mdLink :=
  firstCharIs_seqs_cons _ _ _ (.cls _ (by
    intro c hc
    have hc2 : c = '[' := by simpa using hc
    rw [hc2]
    decide))

theorem fc_mdHeader : FirstCharIs mdSpecial mdHeader :=
  firstCharIs_seqs_bol _ _ _ (firstCharIs_seqs_cons _ _ _
    (.rep _ _ _ _ (by omega) (.cls _ (by
      intro c hc
      have hc2 : c = '#' := by simpa using hc
      rw [hc2]
      decide))))

theorem fc_mdBoldItalicStar : FirstCharIs mdSpecial mdBoldItalicStar :=
  firstCharIs_seqs_cons _ _ _ (firstCharIs_reLitF _ "***" '*' ['*', '*'] (by decide) (by decide))

theorem fc_mdBoldStar : FirstCharIs mdSpecial mdBoldStar :=
  firstCharIs_seqs_cons _ _ _ (firstCharIs_reLitF _ "**" '*' ['*'] (by decide) (by decide))

theorem fc_mdItalicStar : FirstCharIs mdSpecial mdItalicStar :=
  firstCharIs_seqs_cons _ _ _ (.cls _ (by
    intro c hc
    have hc2 : c = '*' := by simpa using hc
    rw [hc2]
    decide))

theorem fc_mdBoldItalicUnd : FirstCharIs mdSpecial mdBoldItalicUnd :=
  firstCharIs_seqs_cons _ _ _ (firstCharIs_reLitF _ "___" '_' ['_', '_'] (by decide) (by decide))

theorem fc_mdBoldUnd : FirstCharIs mdSpecial mdBoldUnd :=
  firstCharIs_seqs_cons _ _ _ (firstCharIs_reLitF _ "__" '_' ['_'] (by decide) (by decide))

theorem fc_mdItalicUnd : FirstCharIs mdSpecial mdItalicUnd :=
  firstCharIs_seqs_cons _ _ _ (.cls _ (by
    intro c hc
    have hc2 : c = '_' := by simpa using hc
    rw [hc2]
    decide))

theorem fc_mdStrike : FirstCharIs mdSpecial mdStrike :=
  firstCharIs_seqs_cons _ _ _ (firstCharIs_reLitF _ "~~" '~' ['~'] (by decide) (by decide))

theorem fc_mdHRule : FirstCharIs mdSpecial mdHRule :=
  firstCharIs_seqs_bol _ _ _ (firstCharIs_seqs_cons _ _ _
    (firstCharIs_reLitF _ "--" '-' ['-'] (by decide) (by decide)))

/-! Run-collapsing passes are the identity on run-free text. -/

theorem containsSub_cons (sep : List Char) (c : Char) (hay : List Char)
    (h : containsSub sep hay = true) : containsSub sep (c :: hay) = true := by
  show (findSepIdx sep (c :: hay)).isSome = true
  unfold findSepIdx
  by_cases hp : sep.isPrefixOf (c :: hay)
  · rw [if_pos hp]
    rfl
  · rw [if_neg hp]
    have h2 : (findSepIdx sep hay).isSome = true := h
    cases h3 : findSepIdx sep hay with
    | none => rw [h3] at h2; cases h2
    | some i => simp [h3]

theorem containsSub_append_left (sep : List Char) :
    ∀ (pre cs : List Char), containsSub sep cs = true →
      containsSub sep (pre ++ cs) = true := by
  intro pre
  induction pre with
  | nil => intro cs h; exact h
  | cons c pre ih =>
    intro cs h
    exact containsSub_cons sep c (pre ++ cs) (ih cs h)

theorem containsSub_of_isPrefixOf (sep hay : List Char)
    (h : sep.isPrefixOf hay = true) : containsSub sep hay = true := by
  cases hay with
  | nil =>
    cases sep with
    | nil => rfl
    | cons c cs => simp [List.isPrefixOf] at h
  | cons c rest =>
    show (findSepIdx sep (c :: rest)).isSome = true
    unfold findSepIdx
    rw [if_pos h]
    rfl

theorem collapseGo_id (ch : Char) (lo rep : Nat) (hlo : 1 ≤ lo) :
    ∀ (cs : List Char) (n : Nat),
      containsSub (List.replicate lo ch) (List.replicate n ch ++ cs) = false →
      collapseGo ch lo rep n cs = List.replicate n ch ++ cs := by
  intro cs
  induction cs with
  | nil =>
    intro n h
    unfold collapseGo emitRun
    have hn : ¬ lo ≤ n := by
      intro hle
      have hp : (List.replicate lo ch).isPrefixOf (List.replicate n ch ++ []) = true := by
        simp only [List.append_nil]
        apply List.isPrefixOf_iff_prefix.mpr
        exact ⟨List.replicate (n - lo) ch, by rw [← List.replicate_add]; congr 1; omega⟩
      rw [containsSub_of_isPrefixOf _ _ hp] at h
      cases h
    rw [if_neg hn]
    simp
  | cons c cs ih =>
    intro n h
    unfold collapseGo
    by_cases hc : c = ch
    · rw [if_pos hc]
      subst hc
      have h2 : List.replicate n c ++ c :: cs = List.replicate (n + 1) c ++ cs := by
        rw [List.replicate_succ']
        simp
      rw [h2] at h
      rw [ih (n + 1) h, h2]
    · rw [if_neg hc]
      have hn : ¬ lo ≤ n := by
        intro hle
        have hp : (List.replicate lo ch).isPrefixOf (List.replicate n ch ++ c :: cs) = true := by
          apply List.isPrefixOf_iff_prefix.mpr
          refine List.IsPrefix.trans ?_ (List.prefix_append _ _)
          exact ⟨List.replicate (n - lo) ch, by rw [← List.replicate_add]; congr 1; omega⟩
        rw [containsSub_of_isPrefixOf _ _ hp] at h
        cases h
      unfold emitRun
      rw [if_neg hn]
      have hcs : containsSub (List.replicate lo ch) cs = false := by
        cases h4 : containsSub (List.replicate lo ch) cs with
        | false => rfl
        | true =>
          have h5 := containsSub_append_left (List.replicate lo ch)
            (List.replicate n ch ++ [c]) cs h4
          rw [List.append_assoc] at h5
          simp only [List.singleton_append] at h5
          rw [h5] at h
          cases h
      have h6 := ih 0 (by simpa using hcs)
      simp only [List.replicate_zero, List.nil_append] at h6
      rw [h6]

theorem collapseRuns_id (ch : Char) (lo rep : Nat) (hlo : 1 ≤ lo) (cs : List Char)
    (h : containsSub (List.replicate lo ch) cs = false) :
    collapseRuns ch lo rep cs = cs := by
  unfold collapseRuns
  have h2 := collapseGo_id ch lo rep hlo cs 0 (by simpa using h)
  simpa using h2

/-- On `mdPlain` text, `remove_markdown` is the identity: no pass can match
anything. -/
theorem remove_markdown_id (cs : List Char) (h : mdPlain cs) :
    remove_markdown cs = cs := by
  obtain ⟨hchars, hnl, hsp, hstrip⟩ := h
  have hf : ∀ c ∈ cs, mdSpecial c = false := by
    intro c hc
    have h2 := hchars c hc
    unfold mdSpecial
    cases h3 : mdSpecialChars.contains c with
    | false => rfl
    | true =>
      rcases List.contains_iff_exists_mem_beq.mp h3 with ⟨a, ha, hbeq⟩
      have : c = a := by simpa using hbeq
      exact absurd (this ▸ ha) h2
  unfold remove_markdown
  by_cases he : cs.isEmpty
  · rw [if_pos he]
  · rw [if_neg he]
    dsimp only
    rw [subAll_id fc_mdCodeBlock _ cs hf]
    rw [subAll_id fc_mdInlineCode _ cs hf]
    rw [subAll_id fc_mdLink _ cs hf]
    rw [subAll_id fc_mdHeader _ cs hf]
    rw [subAll_id fc_mdBoldItalicStar _ cs hf]
    rw [subAll_id fc_mdBoldStar _ cs hf]
    rw [subAll_id fc_mdItalicStar _ cs hf]
    rw [subAll_id fc_mdBoldItalicUnd _ cs hf]
    rw [subAll_id fc_mdBoldUnd _ cs hf]
    rw [subAll_id fc_mdItalicUnd _ cs hf]
    rw [subAll_id fc_mdStrike _ cs hf]
    rw [subAll_id fc_mdHRule _ cs hf]
    rw [collapseRuns_id '\n' 3 2 (by omega) cs hnl]
    rw [collapseRuns_id ' ' 2 1 (by omega) cs hsp]
    exact hstrip

/-- C7 counterexample: `remove_markdown` is not idempotent.  On `" ---"` the
horizontal-rule pass sees no line-start `---` (the line starts with a space)
and the final strip then exposes one, so a second application erases the
whole text. -/
theorem remove_markdown_not_idempotent :
    remove_markdown " ---".data = "---".data ∧
    remove_markdown "---".data = [] ∧
    remove_markdown (remove_markdown " ---".data) ≠ remove_markdown " ---".data :=
  ⟨by decide, by decide, by decide⟩

/-- C7 (amended): `remove_markdown` is idempotent on text free of markup
metacharacters, triple newlines and double spaces, and equal to its own
strip (on such text it is the identity); it is not idempotent in general —
the final strip can expose a line-start construct, as in the `" ---"`
counterexample. -/
theorem remove_markdown_idempotent_plain (cs : List Char) (h : mdPlain cs) :
    remove_markdown (remove_markdown cs) = remove_markdown cs := by
  rw [remove_markdown_id cs h, remove_markdown_id cs h]

theorem remove_markdown_idempotent_plain_witness :
    remove_markdown (remove_markdown "plain text".data) =
      remove_markdown "plain text".data :=
  remove_markdown_idempotent_plain "plain text".data
    ⟨by decide, by decide, by decide, by decide⟩

/-! # C8: chunker round trip -/

theorem findSepIdx_decomp (sep : List Char) :
    ∀ (cs : List Char) (i : Nat), findSepIdx sep cs = some i →
      cs = cs.take i ++ sep ++ cs.drop (i + sep.length) := by
  intro cs
  induction cs with
  | nil =>
    intro i h
    unfold findSepIdx at h
    split at h
    · cases h
      rename_i hsep
      rw [List.isEmpty_iff.mp hsep]
      rfl
    · cases h
  | cons c cs ih =>
    intro i h
    unfold findSepIdx at h
    split at h
    · cases h
      rename_i hpre
      rcases List.isPrefixOf_iff_prefix.mp hpre with ⟨t, ht⟩
      conv_lhs => rw [← ht]
      rw [List.take_zero, Nat.zero_add, ← ht, List.drop_left]
      rfl
    · rcases Option.map_eq_some'.mp h with ⟨j, hj, rfl⟩
      have h2 := ih j hj
      calc c :: cs = c :: (cs.take j ++ sep ++ cs.drop (j + sep.length)) := by rw [← h2]
        _ = (c :: cs).take (j + 1) ++ sep ++ (c :: cs).drop (j + 1 + sep.length) := by
            simp [List.take_succ_cons]
            rw [show j + 1 + sep.length = (j + sep.length) + 1 by omega]
            simp

theorem splitSepF_ne_nil (sep : List Char) (fuel : Nat) (cs : List Char) :
    splitSepF sep fuel cs ≠ [] := by
  cases fuel with
  | zero => simp [splitSepF]
  | succ f1 =>
    unfold splitSepF
    split <;> simp

/-- With enough fuel (each step removes at least one character), splitting
and rejoining with the separator restores the text. -/
theorem splitSepF_join (s0 : Char) (srest : List Char) :
    ∀ (fuel : Nat) (cs : List Char), cs.length < fuel →
      joinSep (s0 :: srest) (splitSepF (s0 :: srest) fuel cs) = cs := by
  intro fuel
  induction fuel with
  | zero => intro cs h; omega
  | succ f1 ih =>
    intro cs h
    unfold splitSepF
    cases hidx : findSepIdx (s0 :: srest) cs with
    | none => rfl
    | some i =>
      have hle := findSepIdx_le (s0 :: srest) cs i hidx
      have hdec := findSepIdx_decomp (s0 :: srest) cs i hidx
      have hrest : (cs.drop (i + (s0 :: srest).length)).length < f1 := by
        rw [List.length_drop]
        simp only [List.length_cons] at hle ⊢
        omega
      have hjoin := ih (cs.drop (i + (s0 :: srest).length)) hrest
      dsimp only
      cases hsp : splitSepF (s0 :: srest) f1 (cs.drop (i + (s0 :: srest).length)) with
      | nil => exact absurd hsp (splitSepF_ne_nil _ _ _)
      | cons y ys =>
        rw [hsp] at hjoin
        rw [show joinSep (s0 :: srest) (cs.take i :: y :: ys) =
            cs.take i ++ (s0 :: srest) ++ joinSep (s0 :: srest) (y :: ys) from rfl]
        rw [hjoin]
        exact hdec.symm

/-- `"\n\n".join` of the `split('\n\n')` pieces is the original text. -/
theorem paragraphsOf_join (text : List Char) :
    joinSep nl2 (paragraphsOf text) = text :=
  splitSepF_join '\n' ['\n'] (text.length + 1) text (by omega)

theorem joinSep_append_last (sep : List Char) (y : List Char) :
    ∀ (xs : List (List Char)), xs ≠ [] →
      joinSep sep (xs ++ [y]) = joinSep sep xs ++ sep ++ y := by
  intro xs
  induction xs with
  | nil => intro h; exact absurd rfl h
  | cons x xs ih =>
    intro _
    cases xs with
    | nil => rfl
    | cons z zs =>
      have h2 := ih (by simp)
      show joinSep sep (x :: ((z :: zs) ++ [y])) = joinSep sep (x :: z :: zs) ++ sep ++ y
      rw [show joinSep sep (x :: ((z :: zs) ++ [y])) =
          x ++ sep ++ joinSep sep ((z :: zs) ++ [y]) from rfl]
      rw [h2]
      simp [joinSep, List.append_assoc]

/-- Every character of a `cleanPiece` boundary: the first and last characters
are not whitespace. -/
theorem cleanPiece_head_last (a : List Char) (h : cleanPiece a) :
    (∀ c, a.head? = some c → isSpaceChar c = false) ∧
    (∀ c, a.getLast? = some c → isSpaceChar c = false) := by
  obtain ⟨hne, hstrip⟩ := h
  have hlen1 : (a.dropWhile isSpaceChar).length = a.length := by
    have h1 : (pyStrip a).length ≤ (a.dropWhile isSpaceChar).length := by
      unfold pyStrip
      rw [List.length_reverse]
      calc ((a.dropWhile isSpaceChar).reverse.dropWhile isSpaceChar).length
          ≤ (a.dropWhile isSpaceChar).reverse.length :=
            (List.dropWhile_suffix _).length_le
        _ = (a.dropWhile isSpaceChar).length := List.length_reverse _
    have h2 : (a.dropWhile isSpaceChar).length ≤ a.length :=
      (List.dropWhile_suffix _).length_le
    rw [hstrip] at h1
    omega
  have hdrop : a.dropWhile isSpaceChar = a := by
    have := List.dropWhile_suffix (l := a) (p := isSpaceChar)
    exact List.IsSuffix.eq_of_length this hlen1
  constructor
  · intro c hc
    cases a with
    | nil => cases hc
    | cons c0 rest =>
      cases hc
      cases hsc : isSpaceChar c with
      | false => rfl
      | true =>
        rw [List.dropWhile_cons_of_pos (by simp [hsc])] at hdrop
        have := (List.dropWhile_suffix (l := rest) isSpaceChar).length_le
        have h3 := congrArg List.length hdrop
        simp at h3
        omega
  · intro c hc
    have hlen2 : ((a.dropWhile isSpaceChar).reverse.dropWhile isSpaceChar).length =
        a.reverse.length := by
      have h1 : (pyStrip a).length =
          ((a.dropWhile isSpaceChar).reverse.dropWhile isSpaceChar).length := by
        unfold pyStrip
        rw [List.length_reverse]
      rw [hstrip] at h1
      simp [← h1]
    rw [hdrop] at hlen2
    have hdrop2 : a.reverse.dropWhile isSpaceChar = a.reverse := by
      have := List.dropWhile_suffix (l := a.reverse) (p := isSpaceChar)
      exact List.IsSuffix.eq_of_length this hlen2
    have hhead : a.reverse.head? = some c := by
      rw [List.head?_reverse]
      exact hc
    cases ha : a.reverse with
    | nil =>
      rw [ha] at hhead
      cases hhead
    | cons c0 rest =>
      rw [ha] at hhead hdrop2
      cases hhead
      cases hsc : isSpaceChar c with
      | false => rfl
      | true =>
        rw [List.dropWhile_cons_of_pos (by simp [hsc])] at hdrop2
        have := (List.dropWhile_suffix (l := rest) isSpaceChar).length_le
        have h3 := congrArg List.length hdrop2
        simp at h3
        omega

/-- A nonempty text whose first and last characters are not whitespace is
unchanged by `strip()`. -/
theorem pyStrip_eq_self_of (cs : List Char)
    (h1 : ∀ c, cs.head? = some c → isSpaceChar c = false)
    (h2 : ∀ c, cs.getLast? = some c → isSpaceChar c = false) :
    pyStrip cs = cs := by
  have hd : cs.dropWhile isSpaceChar = cs := by
    cases cs with
    | nil => rfl
    | cons c rest =>
      rw [List.dropWhile_cons_of_neg]
      simp [h1 c rfl]
  have hd2 : cs.reverse.dropWhile isSpaceChar = cs.reverse := by
    cases hr : cs.reverse with
    | nil => rfl
    | cons c rest =>
      have : cs.getLast? = some c := by
        rw [← List.head?_reverse, hr]
        rfl
      rw [List.dropWhile_cons_of_neg]
      simp [h2 c this]
  unfold pyStrip
  rw [hd, hd2, List.reverse_reverse]

instance (cs : List Char) : Decidable (cleanPiece cs) := by
  unfold cleanPiece
  infer_instance

/-- Packing two clean pieces around the paragraph separator yields a clean
piece. -/
theorem cleanPiece_append (a b : List Char) (ha : cleanPiece a) (hb : cleanPiece b) :
    cleanPiece (a ++ nl2 ++ b) := by
  obtain ⟨hha, _⟩ := cleanPiece_head_last a ha
  obtain ⟨_, hlb⟩ := cleanPiece_head_last b hb
  refine ⟨by simp [ha.1], ?_⟩
  apply pyStrip_eq_self_of
  · intro c hc
    apply hha c
    rcases List.exists_cons_of_ne_nil ha.1 with ⟨a0, arest, rfl⟩
    simpa using hc
  · intro c hc
    apply hlb c
    rw [List.append_assoc, List.getLast?_append] at hc
    have hbs : (nl2 ++ b).getLast? = b.getLast? := by
      rw [List.getLast?_append]
      have h4 : b.getLast?.isSome := List.getLast?_isSome.mpr hb.1
      cases hb2 : b.getLast? with
      | none => rw [hb2] at h4; cases h4
      | some bl => rfl
    rw [hbs] at hc
    have h4 : b.getLast?.isSome := List.getLast?_isSome.mpr hb.1
    cases hb2 : b.getLast? with
    | none => rw [hb2] at h4; cases h4
    | some bl =>
      rw [hb2] at hc
      exact hc

/-- The glue of the remaining paragraphs: each is appended behind one
separator. -/
def tailJoin (ps : List (List Char)) : List Char :=
  (ps.map (fun p => nl2 ++ p)).flatten

theorem joinSep_cons_tailJoin (xs : List (List Char)) :
    ∀ (x : List Char), joinSep nl2 (x :: xs) = x ++ tailJoin xs := by
  induction xs with
  | nil => intro x; simp [joinSep, tailJoin]
  | cons y ys ih =>
    intro x
    show x ++ nl2 ++ joinSep nl2 (y :: ys) = _
    rw [ih y]
    simp [tailJoin, List.append_assoc]

/-- Invariant of the greedy packer: chunks and the current chunk stay clean,
and joining everything accumulated restores the paragraphs processed so
far. -/
theorem chunk_fold_inv (maxLength : Nat) :
    ∀ (ps : List (List Char)) (chunks : List (List Char)) (current : List Char),
      (∀ p ∈ ps, cleanPiece p) →
      (∀ ch ∈ chunks, cleanPiece ch) →
      cleanPiece current →
      (∀ ch ∈ (ps.foldl (chunkStep maxLength) (chunks, current)).1, cleanPiece ch) ∧
      cleanPiece (ps.foldl (chunkStep maxLength) (chunks, current)).2 ∧
      joinSep nl2 ((ps.foldl (chunkStep maxLength) (chunks, current)).1 ++
          [(ps.foldl (chunkStep maxLength) (chunks, current)).2]) =
        joinSep nl2 (chunks ++ [current]) ++ tailJoin ps := by
  intro ps
  induction ps with
  | nil =>
    intro chunks current hps hch hcur
    exact ⟨hch, hcur, by simp [tailJoin]⟩
  | cons p ps ih =>
    intro chunks current hps hch hcur
    have hp : cleanPiece p := hps p (List.mem_cons_self _ _)
    have hps2 : ∀ q ∈ ps, cleanPiece q := fun q hq => hps q (List.mem_cons_of_mem _ hq)
    have hne : current.isEmpty = false := by
      cases hc2 : current with
      | nil => exact absurd hc2 hcur.1
      | cons c0 rest => rfl
    rw [List.foldl_cons]
    by_cases hover : maxLength < current.length + p.length + 2
    · have hstep : chunkStep maxLength (chunks, current) p = (chunks ++ [current], p) := by
        unfold chunkStep
        rw [if_pos hover]
        rw [show (chunks, current).2 = current from rfl, hne]
        simp [hcur.2]
      rw [hstep]
      have hch2 : ∀ ch ∈ chunks ++ [current], cleanPiece ch := by
        intro ch hc2
        rcases List.mem_append.mp hc2 with h2 | h2
        · exact hch ch h2
        · simp at h2
          rw [h2]
          exact hcur
      obtain ⟨i1, i2, i3⟩ := ih (chunks ++ [current]) p hps2 hch2 hp
      refine ⟨i1, i2, ?_⟩
      rw [i3, joinSep_append_last nl2 p (chunks ++ [current]) (by simp)]
      simp [tailJoin, List.append_assoc]
    · have hstep : chunkStep maxLength (chunks, current) p =
          (chunks, current ++ nl2 ++ p) := by
        unfold chunkStep
        rw [if_neg hover]
        rw [show (chunks, current).2 = current from rfl, hne]
        simp
      rw [hstep]
      obtain ⟨i1, i2, i3⟩ :=
        ih chunks (current ++ nl2 ++ p) hps2 hch (cleanPiece_append _ _ hcur hp)
      refine ⟨i1, i2, ?_⟩
      rw [i3]
      cases hchn : chunks with
      | nil => simp [joinSep, tailJoin, List.append_assoc]
      | cons c0 crest =>
        rw [joinSep_append_last nl2 (current ++ nl2 ++ p) (c0 :: crest) (by simp),
            joinSep_append_last nl2 current (c0 :: crest) (by simp)]
        simp [tailJoin, List.append_assoc]

/-- C8 counterexample: with `"a \n\nbb"` and `maxLen = 5` — both paragraphs
within the limit, so the documented oversized-paragraph case does not apply —
the chunker strips the trailing space of the first chunk and rejoining does
not restore the input. -/
theorem split_long_message_strips :
    split_long_message "a \n\nbb".data 5 = ["a".data, "bb".data] ∧
    joinSep nl2 (split_long_message "a \n\nbb".data 5) ≠ "a \n\nbb".data ∧
    (paragraphsOf "a \n\nbb".data).all (fun p => p.length ≤ 5) = true :=
  ⟨by decide, by decide, by decide⟩

/-- C8 (amended): rejoining the chunks with the paragraph separator restores
the input exactly whenever every blank-line-separated paragraph is nonempty
and free of leading/trailing whitespace — including when a single paragraph
exceeds `maxLength`; on other texts the `.strip()` applied to each finished
chunk (and the dropping of empty paragraphs at a chunk start) can lose
boundary whitespace. -/
theorem split_long_message_roundtrip (text : List Char) (maxLength : Nat)
    (h : ∀ p ∈ paragraphsOf text, cleanPiece p) :
    joinSep nl2 (split_long_message text maxLength) = text := by
  unfold split_long_message
  by_cases hlen : text.length ≤ maxLength
  · rw [if_pos hlen]
    rfl
  · rw [if_neg hlen]
    dsimp only
    cases hpar : paragraphsOf text with
    | nil =>
      exact absurd hpar (by unfold paragraphsOf; exact splitSepF_ne_nil _ _ _)
    | cons p0 ps =>
      have hp0 : cleanPiece p0 := h p0 (by rw [hpar]; exact List.mem_cons_self _ _)
      have hps : ∀ q ∈ ps, cleanPiece q :=
        fun q hq => h q (by rw [hpar]; exact List.mem_cons_of_mem _ hq)
      rw [List.foldl_cons]
      have hfirst : chunkStep maxLength ([], []) p0 = ([], p0) := by
        unfold chunkStep
        split <;> rfl
      rw [hfirst]
      obtain ⟨i1, i2, i3⟩ :=
        chunk_fold_inv maxLength ps [] p0 hps (by intro ch hc; cases hc) hp0
      have hne2 : (ps.foldl (chunkStep maxLength) ([], p0)).2.isEmpty = false := by
        cases hc2 : (ps.foldl (chunkStep maxLength) ([], p0)).2 with
        | nil => exact absurd hc2 i2.1
        | cons c0 rest => rfl
      rw [hne2]
      simp only [Bool.false_eq_true, if_false]
      rw [i2.2]
      rw [if_neg (by simp)]
      rw [i3]
      have : joinSep nl2 (([] : List (List Char)) ++ [p0]) = p0 := rfl
      rw [this, ← joinSep_cons_tailJoin ps p0, ← hpar]
      exact paragraphsOf_join text

theorem split_long_message_roundtrip_witness :
    joinSep nl2 (split_long_message "aaaaaa\n\nbb".data 5) = "aaaaaa\n\nbb".data :=
  split_long_message_roundtrip "aaaaaa\n\nbb".data 5 (by decide)

/-! # C1: fan-out results in submission order, one per backend -/

/-- Each completing task writes only its own slot; after running a schedule,
slot `j` holds task `j`'s result iff `j` was scheduled. -/
theorem runSchedule_slots (models : List (String × String)) (env : Nat → Outcome) :
    ∀ (sched : List Nat) (st : FanState), st.slots.length = models.length →
      (runSchedule models env sched st).slots.length = models.length ∧
      ∀ (j : Nat) (m : String × String), models[j]? = some m →
        (runSchedule models env sched st).slots[j]? =
          if j ∈ sched then some (some (queryResult env j m)) else st.slots[j]? := by
  intro sched
  induction sched with
  | nil =>
    intro st h
    exact ⟨h, fun j m hm => by simp [runSchedule]⟩
  | cons i rest ih =>
    intro st h
    have hlen : (runTask models env st i).slots.length = models.length := by
      unfold runTask
      cases hm2 : models[i]? with
      | none => exact h
      | some m2 => simp [h]
    obtain ⟨l1, l2⟩ := ih (runTask models env st i) hlen
    refine ⟨l1, ?_⟩
    intro j m hm
    rw [show runSchedule models env (i :: rest) st =
        runSchedule models env rest (runTask models env st i) from rfl]
    rw [l2 j m hm]
    by_cases hjr : j ∈ rest
    · rw [if_pos hjr, if_pos (List.mem_cons_of_mem _ hjr)]
    · by_cases hji : j = i
      · subst hji
        rw [if_neg hjr, if_pos (List.mem_cons_self _ _)]
        unfold runTask
        rw [hm]
        have hjlt : j < models.length := by
          cases hlt : Nat.decLt j models.length with
          | isTrue hp => exact hp
          | isFalse hp =>
            rw [List.getElem?_eq_none (by omega)] at hm
            cases hm
        simp only []
        rw [List.getElem?_set_self (by omega)]
      · have hj : j ∉ i :: rest := by
          intro hj2
          rcases List.mem_cons.mp hj2 with h2 | h2
          · exact hji h2
          · exact hjr h2
        rw [if_neg hjr, if_neg hj]
        unfold runTask
        cases hm2 : models[i]? with
        | none => rfl
        | some m2 =>
          simp only []
          rw [List.getElem?_set_ne (fun he => hji he.symm)]

theorem submissionResults_getElem (env : Nat → Outcome) :
    ∀ (models : List (String × String)) (i j : Nat),
      (submissionResults env i models)[j]? =
        (models[j]?).map (fun m => queryResult env (i + j) m) := by
  intro models
  induction models with
  | nil => intro i j; simp [submissionResults]
  | cons m ms ih =>
    intro i j
    cases j with
    | zero => simp [submissionResults]
    | succ j2 =>
      rw [show submissionResults env i (m :: ms) =
          queryResult env i m :: submissionResults env (i + 1) ms from rfl]
      rw [List.getElem?_cons_succ, List.getElem?_cons_succ, ih (i + 1) j2]
      rw [show i + 1 + j2 = i + (j2 + 1) by omega]

/-- C1: for every prompt environment and every completion schedule that is a
permutation of the submitted task indices, the gathered fan-out output is one
result per dispatched backend, pairing each backend's display name with its
own response or error text, in the original submission order — independent of
the completion order, and no backend's failure removes any other's result;
`ask_selected_models` formats exactly that list. -/
theorem gather_submission_order (models : List (String × String)) (env : Nat → Outcome)
    (sched : List Nat) (hperm : sched.Perm (List.range models.length)) :
    gatherResults models env sched = submissionResults env 0 models ∧
    (gatherResults models env sched).length = models.length ∧
    ask_selected_models models env sched =
      String.mk (joinSep "\n\n---\n\n".data
        ((submissionResults env 0 models).map
          (fun r => ("**" ++ r.1 ++ ":**\n" ++ r.2).data))) := by
  have hmain : gatherResults models env sched = submissionResults env 0 models := by
    apply List.ext_getElem?
    intro j
    unfold gatherResults
    have hinit : (initFan models).slots.length = models.length := by simp [initFan]
    obtain ⟨hlen, hget⟩ := runSchedule_slots models env sched (initFan models) hinit
    rw [List.getElem?_map, submissionResults_getElem env models 0 j]
    cases hm : models[j]? with
    | none =>
      have hjge : models.length ≤ j := by
        cases hlt : Nat.decLt j models.length with
        | isTrue hp =>
          rw [List.getElem?_eq_getElem hp] at hm
          cases hm
        | isFalse hp => omega
      rw [List.getElem?_eq_none (by omega)]
      rfl
    | some m =>
      have hjlt : j < models.length := by
        cases hlt : Nat.decLt j models.length with
        | isTrue hp => exact hp
        | isFalse hp =>
          rw [List.getElem?_eq_none (by omega)] at hm
          cases hm
      have hmem : j ∈ sched := hperm.mem_iff.mpr (List.mem_range.mpr hjlt)
      rw [hget j m hm, if_pos hmem]
      simp
  refine ⟨hmain, ?_, ?_⟩
  · unfold gatherResults
    have hinit : (initFan models).slots.length = models.length := by simp [initFan]
    obtain ⟨hlen, _⟩ := runSchedule_slots models env sched (initFan models) hinit
    simp [hlen]
  · unfold ask_selected_models
    rw [hmain]

theorem gather_submission_order_witness :
    gatherResults [("deepseek/deepseek-chat", "DeepSeek"), ("openai/gpt-4o", "ChatGPT")]
      (fun i => if i = 0 then .success "x" else .exn "timeout") [1, 0] =
      [("DeepSeek", "x"), ("ChatGPT", "Error from openai/gpt-4o: timeout")] := by
  rw [(gather_submission_order
    [("deepseek/deepseek-chat", "DeepSeek"), ("openai/gpt-4o", "ChatGPT")]
    (fun i => if i = 0 then .success "x" else .exn "timeout") [1, 0] (by decide)).1]
  decide

/-! # Prefix disambiguation of the command keywords -/

theorem stop_not_start (t : List Char)
    (h : "stop_battle".data.isPrefixOf t = true) :
    "start_battle".data.isPrefixOf t = false := by
  cases hs : "start_battle".data.isPrefixOf t with
  | false => rfl
  | true =>
    have h1 := List.isPrefixOf_iff_prefix.mp h
    have h2 := List.isPrefixOf_iff_prefix.mp hs
    have h3 := List.prefix_of_prefix_length_le h1 h2 (by decide)
    exact absurd (List.isPrefixOf_iff_prefix.mpr h3) (by decide)

theorem q2_not_battle (t : List Char) (h : "q2(".data.isPrefixOf t = true) :
    "start_battle".data.isPrefixOf t = false ∧
    "stop_battle".data.isPrefixOf t = false := by
  have h1 := List.isPrefixOf_iff_prefix.mp h
  constructor
  · cases hs : "start_battle".data.isPrefixOf t with
    | false => rfl
    | true =>
      have h2 := List.isPrefixOf_iff_prefix.mp hs
      have h3 := List.prefix_of_prefix_length_le h1 h2 (by decide)
      exact absurd (List.isPrefixOf_iff_prefix.mpr h3) (by decide)
  · cases hs : "stop_battle".data.isPrefixOf t with
    | false => rfl
    | true =>
      have h2 := List.isPrefixOf_iff_prefix.mp hs
      have h3 := List.prefix_of_prefix_length_le h1 h2 (by decide)
      exact absurd (List.isPrefixOf_iff_prefix.mpr h3) (by decide)

/-! # C2: rejected battle transitions change nothing -/

/-- C2: `stop_battle` with no active battle, and `start_battle` with one
already active, each yield only the user-visible error reply: the store is
unchanged (so the derived battle flag and start timestamp are unaltered), no
record is appended, and nothing is dispatched. -/
theorem battle_state_conflicts (st : List ChatRecord) (m : MsgIn)
    (env : Nat → Outcome) (sched : List Nat) (finalO : Outcome) :
    ("start_battle".data.isPrefixOf m.text.data = true →
      (is_battle_mode_active st).1 = true →
      handle_message st m env sched finalO =
        { store := st, replies := [startBattleActiveError], dispatched := [] }) ∧
    ("stop_battle".data.isPrefixOf m.text.data = true →
      (is_battle_mode_active st).1 = false →
      handle_message st m env sched finalO =
        { store := st, replies := [stopBattleIdleError], dispatched := [] }) := by
  constructor
  · intro h1 h2
    unfold handle_message
    rw [if_pos h1, if_pos h2]
  · intro h1 h2
    unfold handle_message
    rw [if_neg (by rw [stop_not_start _ h1]; simp), if_pos h1,
      if_pos (by rw [h2]; simp)]

theorem battle_state_conflicts_witness :
    handle_message [⟨-1003100969272, 1, "u", "start_battle", 1⟩]
        ⟨-1003100969272, 2, "v", "start_battle", 5⟩ (fun _ => .success "s") []
        (.success "ok") =
      { store := [⟨-1003100969272, 1, "u", "start_battle", 1⟩],
        replies := [startBattleActiveError], dispatched := [] } ∧
    handle_message [] ⟨-1003100969272, 2, "v", "stop_battle", 5⟩
        (fun _ => .success "s") [] (.success "ok") =
      { store := [], replies := [stopBattleIdleError], dispatched := [] } :=
  ⟨(battle_state_conflicts _ _ _ _ _).1 (by decide) (by decide),
   (battle_state_conflicts _ _ _ _ _).2 (by decide) (by decide)⟩

/-! # C3: battle stop commits before summary generation -/

/-- If the flag derived from the log says a battle is active, the log holds a
start record, so `get_last_battle_start` is set. -/
theorem active_has_start (st : List ChatRecord) :
    (is_battle_mode_active st).1 = true → get_last_battle_start st ≠ none := by
  unfold is_battle_mode_active get_last_battle_start lastBattleCmd
  suffices h : ∀ (a : Option ChatRecord) (b : Option Nat),
      (∀ r, a = some r → "start_battle".data.isPrefixOf r.text.data = true → b ≠ none) →
      (match st.foldl (fun acc r => if isBattleCmd r then some r else acc) a with
        | some r =>
          if "start_battle".data.isPrefixOf r.text.data then (true, some r.ts)
          else (false, none)
        | none => (false, none)).1 = true →
      st.foldl (fun acc r =>
        if "start_battle".data.isPrefixOf r.text.data then some r.ts else acc) b ≠ none by
    intro hact
    exact h none none (fun r hr => by cases hr) hact
  induction st with
  | nil =>
    intro a b hinv hact
    cases ha : a with
    | none => rw [ha] at hact; cases hact
    | some r =>
      rw [ha] at hact
      simp only [List.foldl_nil] at hact ⊢
      split at hact
      · exact hinv r ha (by assumption)
      · cases hact
  | cons r0 st ih =>
    intro a b hinv hact
    simp only [List.foldl_cons] at hact ⊢
    by_cases hb : isBattleCmd r0 = true
    · rw [if_pos hb] at hact
      by_cases hsp : "start_battle".data.isPrefixOf r0.text.data = true
      · rw [if_pos hsp]
        refine ih (some r0) (some r0.ts) ?_ hact
        intro r hr _
        simp
      · rw [if_neg hsp]
        refine ih (some r0) b ?_ hact
        intro r hr hstart
        cases hr
        exact absurd hstart hsp
    · rw [if_neg hb] at hact
      have hsp : "start_battle".data.isPrefixOf r0.text.data = false := by
        cases hx : "start_battle".data.isPrefixOf r0.text.data with
        | false => rfl
        | true => exact absurd (by unfold isBattleCmd; rw [hx]; rfl) hb
      rw [hsp]
      simp only [Bool.false_eq_true, if_false]
      exact ih a b hinv hact

theorem foldl_singleton {A B : Type} (f : B → A → B) (b : B) (a : A) :
    List.foldl f b [a] = f b a := rfl

/-- Appending a record whose text is not a `start_battle` command does not
change the recorded last battle start. -/
theorem get_last_battle_start_append (st : List ChatRecord) (r : ChatRecord)
    (h : "start_battle".data.isPrefixOf r.text.data = false) :
    get_last_battle_start (st ++ [r]) = get_last_battle_start st := by
  unfold get_last_battle_start
  rw [List.foldl_append, foldl_singleton, h]
  simp

/-- Appending a `stop_battle` record turns the derived battle flag off. -/
theorem is_battle_mode_active_append_stop (st : List ChatRecord) (r : ChatRecord)
    (hstop : "stop_battle".data.isPrefixOf r.text.data = true) :
    is_battle_mode_active (st ++ [r]) = (false, none) := by
  unfold is_battle_mode_active lastBattleCmd
  rw [List.foldl_append, foldl_singleton]
  have hbc : isBattleCmd r = true := by
    unfold isBattleCmd
    rw [hstop]
    simp
  rw [hbc]
  simp [stop_not_start _ hstop]

/-- C3: on a valid `stop_battle` whose designated summary backend fails
(non-200 or transport exception), the stop record is already committed to the
store, the battle flag derived from the store is off, the summary text is the
error string with an empty score table, and the user sees the final message
built from that error string and the empty scoreboard. -/
theorem stop_battle_summary_failure (st : List ChatRecord) (m : MsgIn)
    (env : Nat → Outcome) (sched : List Nat) (finalO : Outcome)
    (hpre : "stop_battle".data.isPrefixOf m.text.data = true)
    (hactive : (is_battle_mode_active st).1 = true)
    (hfail : isFailureOutcome finalO = true) :
    (handle_message st m env sched finalO).store =
      st ++ [⟨m.chatId, m.userId, m.username, m.text, m.ts⟩] ∧
    (is_battle_mode_active (handle_message st m env sched finalO).store).1 = false ∧
    generate_battle_summary (st ++ [⟨m.chatId, m.userId, m.username, m.text, m.ts⟩])
      finalO = (summaryErrorText finalO, []) ∧
    (handle_message st m env sched finalO).replies =
      (split_long_message (STOP_BATTLE_MESSAGE ++ "\n\n---\n\n**Battle Summary:**\n\n" ++
        summaryErrorText finalO ++ "\n\n---\n\n" ++
        "**Scoreboard:**\n\nUnable to extract scores from summary.").data 4000).map
        String.mk := by
  have hgen : generate_battle_summary
      (st ++ [⟨m.chatId, m.userId, m.username, m.text, m.ts⟩]) finalO =
      (summaryErrorText finalO, []) := by
    unfold generate_battle_summary
    rw [get_last_battle_start_append st _ (stop_not_start _ hpre)]
    cases hg : get_last_battle_start st with
    | none => exact absurd hg (active_has_start st hactive)
    | some ts =>
      cases finalO with
      | success t => cases hfail
      | httpError s => rfl
      | exn e => rfl
  have hout : handle_message st m env sched finalO =
      { store := st ++ [⟨m.chatId, m.userId, m.username, m.text, m.ts⟩],
        replies := (split_long_message (STOP_BATTLE_MESSAGE ++
          "\n\n---\n\n**Battle Summary:**\n\n" ++ summaryErrorText finalO ++
          "\n\n---\n\n" ++
          "**Scoreboard:**\n\nUnable to extract scores from summary.").data 4000).map
          String.mk,
        dispatched := [FINAL_MODEL] } := by
    unfold handle_message
    rw [if_neg (by rw [stop_not_start _ hpre]; simp), if_pos hpre,
      if_neg (by rw [hactive]; simp)]
    unfold save_message_to_db
    dsimp only
    rw [hgen]
    rfl
  refine ⟨by rw [hout], ?_, hgen, by rw [hout]⟩
  rw [hout]
  dsimp only
  rw [is_battle_mode_active_append_stop st _ hpre]

/-! # C9: q2 commands with unknown model names -/

/-- C9 counterexample: `"q2(glaude)"` has an unknown name in its
parenthesized list, but because its question text is empty the earlier
"No question provided" check fires, and the reply names neither the unknown
model nor the available names (there is still no dispatch and no append). -/
theorem q2_no_question_error :
    parse_q2_models "q2(glaude)".data = .error "No question provided in q2 command" ∧
    handle_message [] ⟨-1003100969272, 1, "u", "q2(glaude)", 1⟩
        (fun _ => .success "s") [] (.success "s") =
      { store := [], replies := ["❌ Error: No question provided in q2 command"],
        dispatched := [] } ∧
    containsSub "glaude".data "❌ Error: No question provided in q2 command".data =
      false :=
  ⟨by rfl, by decide, by decide⟩

/-- C9 (amended): for every q2 command with a closing parenthesis, a nonempty
model list and nonempty question text, whose model list contains a name not
in `AVAILABLE_MODELS`: the reply is the syntax error naming exactly the
unknown names (in order) and listing the available names, the store is
unchanged (no record appended) and no backend call is dispatched.  (When the
question text is empty, the command is instead rejected by the earlier
"No question provided" error — still with no dispatch and no append — which
does not name the unknown models.) -/
theorem q2_unknown_models (st : List ChatRecord) (m : MsgIn) (env : Nat → Outcome)
    (sched : List Nat) (finalO : Outcome) (pe : Nat)
    (hpre : "q2(".data.isPrefixOf m.text.data = true)
    (hparen : findSepIdx [')'] m.text.data = some pe)
    (hms : (pyStrip ((m.text.data.drop 3).take (pe - 3))).isEmpty = false)
    (hq : (pyStrip (m.text.data.drop (pe + 1))).isEmpty = false)
    (hinv : ((q2Names m.text.data pe).filter
        (fun nm => (availableLookup nm).isNone)).isEmpty = false) :
    handle_message st m env sched finalO =
      { store := st,
        replies := ["❌ Error: " ++ String.mk ("Unknown models: ".data ++
          joinCommaSp ((q2Names m.text.data pe).filter
            (fun nm => (availableLookup nm).isNone)) ++
          ". Available: ".data ++
          joinCommaSp (AVAILABLE_MODELS.map (fun e => e.1.data)))],
        dispatched := [] } := by
  obtain ⟨hnstart, hnstop⟩ := q2_not_battle _ hpre
  have hparse : parse_q2_models m.text.data =
      .error (String.mk ("Unknown models: ".data ++
        joinCommaSp ((q2Names m.text.data pe).filter
          (fun nm => (availableLookup nm).isNone)) ++
        ". Available: ".data ++
        joinCommaSp (AVAILABLE_MODELS.map (fun e => e.1.data)))) := by
    unfold parse_q2_models
    rw [if_neg (by rw [hpre]; simp)]
    rw [hparen]
    dsimp only
    rw [if_neg (by rw [hms]; simp), if_neg (by rw [hq]; simp),
      if_pos (by rw [show ((q2Names m.text.data pe).filter
        (fun nm => (availableLookup nm).isNone)) =
        (((splitSep ',' [] (pyStrip ((m.text.data.drop 3).take (pe - 3)))).map
          (fun nm => lowerStr (pyStrip nm))).filter
            (fun nm => (availableLookup nm).isNone)) from rfl] at hinv; rw [hinv]; simp)]
    rfl
  unfold handle_message
  rw [if_neg (by rw [hnstart]; simp), if_neg (by rw [hnstop]; simp)]
  dsimp only
  rw [if_pos hpre, if_pos hpre, hparse]

theorem q2_unknown_models_witness :
    handle_message [] ⟨-1003100969272, 1, "u", "q2(deepseek,glaude) what is XLN?", 1⟩
        (fun _ => .success "s") [] (.success "s") =
      { store := [],
        replies :=
          ["❌ Error: Unknown models: glaude. Available: deepseek, chatgpt, grok, claude, gpt4, gpt-4o"],
        dispatched := [] } := by
  rw [q2_unknown_models [] ⟨-1003100969272, 1, "u", "q2(deepseek,glaude) what is XLN?", 1⟩
    (fun _ => .success "s") [] (.success "s") 18 (by decide) (by decide) (by decide)
    (by decide) (by decide)]
  decide

/-! # C10: backend failures mark "done", the "error" branch needs an edit
failure -/

/-- Status-board lookup (`status_dict[name]`). -/
def lookupStatus : List (String × String) → String → Option String
  | [], _ => none
  | e :: rest, u => if e.1 = u then some e.2 else lookupStatus rest u

theorem lookupStatus_setStatus (sc : List (String × String)) (u v w : String) :
    lookupStatus (setStatus sc u v) w = if u = w then some v else lookupStatus sc w := by
  induction sc with
  | nil =>
    by_cases h : u = w <;> simp [setStatus, lookupStatus, h]
  | cons e rest ih =>
    simp only [setStatus]
    by_cases h1 : e.1 = u
    · rw [if_pos h1]
      by_cases h2 : u = w
      · simp [lookupStatus, h2]
      · have he : ¬ e.1 = w := by rw [h1]; exact h2
        simp [lookupStatus, h2, he]
    · rw [if_neg h1]
      by_cases h2 : e.1 = w
      · have hu : ¬ u = w := fun hh => h1 (by rw [hh, h2])
        simp [lookupStatus, h2, hu]
      · simp [lookupStatus, h2, ih]

/-- C10: a non-200 status or transport exception is converted by
`ask_openrouter` into an "Error from {model}: ..." result string — the raise
inside the `try` is caught — so `query_model_with_status` sets that backend's
status entry to "done" and returns the error text as its response; the
"error" status entry can arise only when the status-message edit itself
raises. -/
theorem backend_failure_marks_done (model_id model_name : String) (o : Outcome)
    (status : List (String × String)) :
    (lookupStatus (query_model_with_status model_id model_name o none status).1
        model_name = some "done" ∧
      (query_model_with_status model_id model_name o none status).2 =
        (model_name, ask_openrouter model_id o)) ∧
    (∀ s, ask_openrouter model_id (.httpError s) =
      s!"Error from {model_id}: API returned status {s}") ∧
    (∀ e, ask_openrouter_body model_id (.exn e) = .error e ∧
      ask_openrouter model_id (.exn e) = s!"Error from {model_id}: {e}") ∧
    (∀ (editExn : Option String),
      lookupStatus (query_model_with_status model_id model_name o editExn status).1
          model_name = some "error" → editExn ≠ none) := by
  refine ⟨⟨?_, rfl⟩, fun s => rfl, fun e => ⟨rfl, rfl⟩, ?_⟩
  · unfold query_model_with_status
    dsimp only
    rw [lookupStatus_setStatus]
    simp
  · intro editExn herr
    cases editExn with
    | none =>
      unfold query_model_with_status at herr
      dsimp only at herr
      rw [lookupStatus_setStatus] at herr
      simp at herr
    | some e => simp

theorem backend_failure_marks_done_witness :
    ((some "edit timed out" : Option String) ≠ none) ∧
    lookupStatus (query_model_with_status "openai/gpt-4o" "ChatGPT"
        (.httpError 500) none []).1 "ChatGPT" = some "done" :=
  ⟨(backend_failure_marks_done "openai/gpt-4o" "ChatGPT" (.httpError 500) []).2.2.2
      (some "edit timed out") (by decide),
   (backend_failure_marks_done "openai/gpt-4o" "ChatGPT" (.httpError 500) []).1.1⟩

theorem stop_battle_summary_failure_witness :
    (handle_message [⟨-1003100969272, 1, "u", "start_battle", 1⟩]
        ⟨-1003100969272, 2, "v", "stop_battle", 5⟩ (fun _ => .success "s") []
        (.exn "boom")).store =
      [⟨-1003100969272, 1, "u", "start_battle", 1⟩,
       ⟨-1003100969272, 2, "v", "stop_battle", 5⟩] ∧
    (is_battle_mode_active (handle_message [⟨-1003100969272, 1, "u", "start_battle", 1⟩]
        ⟨-1003100969272, 2, "v", "stop_battle", 5⟩ (fun _ => .success "s") []
        (.exn "boom")).store).1 = false :=
  ⟨(stop_battle_summary_failure _ _ _ _ _ (by decide) (by decide) (by decide)).1,
   (stop_battle_summary_failure _ _ _ _ _ (by decide) (by decide) (by decide)).2.1⟩

end XlnBot
















